import Mathlib

/-!
Verification of the cachemir distributed cache: a shallow embedding in Lean 4
of the store engine (pkg/cache/cache.go), the wire codec (pkg/protocol),
the server command dispatcher (internal server package) and the consistent
hash ring (pkg/hash/consistent.go), together with proofs and refutations of
the specification's claims.

Conventions of the embedding:
  * Go strings and byte slices are byte lists (`Str := List Nat`); all bytes
    produced by the code are < 256.
  * Go `time.Time` values are instants in nanoseconds (`Int`); the zero
    `time.Time` (meaning "no expiration" throughout this code base) is
    modelled as `Option.none` in `Value.expiresAt`.  `time.Duration` is an
    `Int` count of nanoseconds.
  * Go `int64` arithmetic wraps in two's complement; `wrap64` performs the
    reduction.  `uint64` values are `Nat`s reduced mod `2^64` where the Go
    operation can wrap.
  * Go maps (`map[string]*Value`, `map[string]string`, `map[string]bool`,
    `map[uint32]string`) are association lists with overwrite-on-insert;
    the claims settled here do not depend on Go's randomized iteration
    order.
  * each operation takes the current instant `now` explicitly where the Go
    code reads the wall clock (`time.Now()`).
-/

/-- Go string / byte slice: a list of byte values. -/
abbrev Str := List Nat

/-- Byte list of an ASCII Lean string literal (used for the fixed message
texts that appear in the Go sources). -/
def strBytes (s : String) : Str := s.data.map Char.toNat

/-- Two's complement wrap of an integer into the `int64` range,
as performed by Go's 64-bit signed arithmetic. -/
def wrap64 (x : Int) : Int := (x + 2 ^ 63) % 2 ^ 64 - 2 ^ 63

/-- Go's `strconv.ParseInt(s, 10, 64)`: optional sign, decimal digits,
error when empty, malformed, or out of the `int64` range. -/
def parseInt (s : Str) : Option Int :=
  match s with
  | [] => none
  | c :: rest =>
    let signed : Bool × Str :=
      if c = 43 then (false, rest)
      else if c = 45 then (true, rest)
      else (false, c :: rest)
    let neg := signed.1
    let digits := signed.2
    if digits = [] then none
    else if digits.all (fun d => 48 ≤ d && d ≤ 57) then
      let n : Nat := digits.foldl (fun acc d => acc * 10 + (d - 48)) 0
      if neg then
        if n ≤ 2 ^ 63 then some (-(n : Int)) else none
      else
        if n ≤ 2 ^ 63 - 1 then some (n : Int) else none
    else none

/-- Decimal digit expansion (ASCII bytes, most significant first).  The
fuel argument only bounds the recursion depth; 24 digits cover every
`uint64`/`int64` magnitude the Go code can produce. -/
def natDecAux : Nat → Nat → Str
  | 0, _ => []
  | fuel + 1, n => if n < 10 then [48 + n] else natDecAux fuel (n / 10) ++ [48 + n % 10]

/-- Decimal text of a natural number (as produced by Go for values that fit
in 64 bits). -/
def natDec (n : Nat) : Str := natDecAux 24 n

/-- Go's `strconv.FormatInt(v, 10)`. -/
def formatInt (v : Int) : Str :=
  if v < 0 then 45 :: natDec (-v).toNat else natDec v.toNat

/-- Go's `time.Duration.Seconds()` truncated to `int64`, as in
`int64(d.Seconds())`: division by 10^9 rounding toward zero.  (The Go
expression goes through `float64`; for every duration this code feeds it —
sentinels and second-granular TTLs far below 2^53 ns — the float path
truncates identically.) -/
def durSeconds (d : Int) : Int := Int.tdiv d 1000000000

/-- Nanoseconds in a second (`time.Second`). -/
def nsPerSec : Int := 1000000000

/-! ## Store engine (pkg/cache/cache.go) -/

/-- `ValueType` tags from cache.go (`TypeString`..`TypeSet`). -/
inductive ValueType
  | TypeString
  | TypeHash
  | TypeList
  | TypeSet
deriving DecidableEq, Repr

/-- The dynamic content of the `interface{}` field `Value.Data`: the four
shapes the cache code ever stores (string, `map[string]string`,
`[]string`, `map[string]bool`). -/
inductive GoData
  | ofString (s : Str)
  | ofHash (entries : List (Str × Str))
  | ofList (elems : List Str)
  | ofSet (members : List Str)
deriving DecidableEq, Repr

/-- cache.go `Value`: data, expiration (none = zero `time.Time` = never)
and the type tag. -/
structure Value where
  data : GoData
  expiresAt : Option Int
  vtype : ValueType
deriving DecidableEq, Repr

/-- cache.go `Cache`: the `map[string]*Value` table (the mutex guards
concurrency only and has no sequential semantics). -/
structure Cache where
  data : List (Str × Value)
deriving DecidableEq, Repr

/-- Lookup in an association-list map (Go map read). -/
def mapGet : List (Str × Value) → Str → Option Value
  | [], _ => none
  | (k', v) :: rest, k => if k' = k then some v else mapGet rest k

/-- Overwriting insert in an association-list map (Go map write). -/
def mapPut : List (Str × Value) → Str → Value → List (Str × Value)
  | [], k, v => [(k, v)]
  | (k', v') :: rest, k, v =>
    if k' = k then (k, v) :: rest else (k', v') :: mapPut rest k v

/-- Key removal (Go `delete`). -/
def mapDel : List (Str × Value) → Str → List (Str × Value)
  | [], _ => []
  | (k', v') :: rest, k => if k' = k then mapDel rest k else (k', v') :: mapDel rest k

/-- Hash-field lookup in the inner `map[string]string`. -/
def hmGet : List (Str × Str) → Str → Option Str
  | [], _ => none
  | (f', v) :: rest, f => if f' = f then some v else hmGet rest f

/-- Hash-field overwrite/insert in the inner `map[string]string`. -/
def hmPut : List (Str × Str) → Str → Str → List (Str × Str)
  | [], f, v => [(f, v)]
  | (f', v') :: rest, f, v =>
    if f' = f then (f, v) :: rest else (f', v') :: hmPut rest f v

/-- Hash-field removal. -/
def hmDel : List (Str × Str) → Str → List (Str × Str)
  | [], _ => []
  | (f', v') :: rest, f => if f' = f then hmDel rest f else (f', v') :: hmDel rest f

/-- `Cache.isExpired`: a value with a set expiration strictly in the past
(`time.Now().After(value.ExpiresAt)`). -/
def isExpired (now : Int) (v : Value) : Bool :=
  match v.expiresAt with
  | none => false
  | some e => e < now

/-- Error text `"value is not a string"` from cache.go. -/
def errNotString : Str := strBytes "value is not a string"

/-- Error text `"value is not an integer"` from cache.go. -/
def errNotInteger : Str := strBytes "value is not an integer"

/-- `Cache.Get`. -/
def Cache.Get (c : Cache) (key : Str) (now : Int) : Str × Bool :=
  match mapGet c.data key with
  | none => ([], false)
  | some value =>
    if isExpired now value then ([], false)
    else if value.vtype ≠ ValueType.TypeString then ([], false)
    else
      match value.data with
      | GoData.ofString s => (s, true)
      | _ => ([], false)

/-- `Cache.Set`: overwrites with a fresh string value; positive ttl sets
`ExpiresAt = now + ttl`, otherwise the expiration stays unset. -/
def Cache.Set (c : Cache) (key val : Str) (ttl now : Int) : Cache :=
  let value : Value :=
    { vtype := ValueType.TypeString
      data := GoData.ofString val
      expiresAt := if ttl > 0 then some (now + ttl) else none }
  ⟨mapPut c.data key value⟩

/-- `Cache.Del`. -/
def Cache.Del (c : Cache) (key : Str) : Bool × Cache :=
  match mapGet c.data key with
  | some _ => (true, ⟨mapDel c.data key⟩)
  | none => (false, c)

/-- `Cache.Exists`. -/
def Cache.Exists (c : Cache) (key : Str) (now : Int) : Bool :=
  match mapGet c.data key with
  | none => false
  | some value => !isExpired now value

/-- `Cache.IncrBy`: creates the key with the decimal encoding of `delta`
when absent or expired; otherwise requires a string holding a decimal
`int64`; the sum wraps like Go `int64` addition. -/
def Cache.IncrBy (c : Cache) (key : Str) (delta : Int) (now : Int) :
    Except Str Int × Cache :=
  let create : Except Str Int × Cache :=
    (Except.ok delta,
     ⟨mapPut c.data key
        { vtype := ValueType.TypeString
          data := GoData.ofString (formatInt delta)
          expiresAt := none }⟩)
  match mapGet c.data key with
  | none => create
  | some value =>
    if isExpired now value then create
    else if value.vtype ≠ ValueType.TypeString then (Except.error errNotString, c)
    else
      match value.data with
      | GoData.ofString s =>
        match parseInt s with
        | none => (Except.error errNotInteger, c)
        | some current =>
          let newVal := wrap64 (current + delta)
          (Except.ok newVal,
           ⟨mapPut c.data key { value with data := GoData.ofString (formatInt newVal) }⟩)
      | _ => (Except.error errNotString, c)

/-- `Cache.Incr` = `IncrBy 1`. -/
def Cache.Incr (c : Cache) (key : Str) (now : Int) : Except Str Int × Cache :=
  Cache.IncrBy c key 1 now

/-- `Cache.Decr` = `IncrBy (-1)`. -/
def Cache.Decr (c : Cache) (key : Str) (now : Int) : Except Str Int × Cache :=
  Cache.IncrBy c key (-1) now

/-- `Cache.Expire`: on a live key stores the absolute instant `now + ttl`
(whatever the sign of `ttl`). -/
def Cache.Expire (c : Cache) (key : Str) (ttl now : Int) : Bool × Cache :=
  match mapGet c.data key with
  | none => (false, c)
  | some value =>
    if isExpired now value then (false, c)
    else (true, ⟨mapPut c.data key { value with expiresAt := some (now + ttl) }⟩)

/-- `Cache.TTL`: remaining nanoseconds, `-1s` for a live key without
expiration, `-2s` when absent, expired, or the remaining time is ≤ 0. -/
def Cache.TTL (c : Cache) (key : Str) (now : Int) : Int :=
  match mapGet c.data key with
  | none => -2 * nsPerSec
  | some value =>
    if isExpired now value then -2 * nsPerSec
    else
      match value.expiresAt with
      | none => -1 * nsPerSec
      | some e =>
        let remaining := e - now
        if remaining ≤ 0 then -2 * nsPerSec else remaining

/-- `Cache.Persist`. -/
def Cache.Persist (c : Cache) (key : Str) (now : Int) : Bool × Cache :=
  match mapGet c.data key with
  | none => (false, c)
  | some value =>
    if isExpired now value then (false, c)
    else (true, ⟨mapPut c.data key { value with expiresAt := none }⟩)

/-- `Cache.HGet`. -/
def Cache.HGet (c : Cache) (key field : Str) (now : Int) : Str × Bool :=
  match mapGet c.data key with
  | none => ([], false)
  | some value =>
    if isExpired now value then ([], false)
    else if value.vtype ≠ ValueType.TypeHash then ([], false)
    else
      match value.data with
      | GoData.ofHash h =>
        match hmGet h field with
        | some v => (v, true)
        | none => ([], false)
      | _ => ([], false)

/-- `Cache.HSet`: creates the hash when the key is absent or expired;
silently returns without mutating when the key holds another variant. -/
def Cache.HSet (c : Cache) (key field val : Str) (now : Int) : Cache :=
  match mapGet c.data key with
  | none =>
    ⟨mapPut c.data key
      { vtype := ValueType.TypeHash, data := GoData.ofHash (hmPut [] field val),
        expiresAt := none }⟩
  | some value =>
    if isExpired now value then
      ⟨mapPut c.data key
        { vtype := ValueType.TypeHash, data := GoData.ofHash (hmPut [] field val),
          expiresAt := none }⟩
    else if value.vtype ≠ ValueType.TypeHash then c
    else
      match value.data with
      | GoData.ofHash h =>
        ⟨mapPut c.data key { value with data := GoData.ofHash (hmPut h field val) }⟩
      | _ => c

/-- `Cache.HDel`. -/
def Cache.HDel (c : Cache) (key field : Str) (now : Int) : Bool × Cache :=
  match mapGet c.data key with
  | none => (false, c)
  | some value =>
    if isExpired now value then (false, c)
    else if value.vtype ≠ ValueType.TypeHash then (false, c)
    else
      match value.data with
      | GoData.ofHash h =>
        match hmGet h field with
        | some _ =>
          (true, ⟨mapPut c.data key { value with data := GoData.ofHash (hmDel h field) }⟩)
        | none => (false, c)
      | _ => (false, c)

/-- `Cache.HExists`. -/
def Cache.HExists (c : Cache) (key field : Str) (now : Int) : Bool :=
  match mapGet c.data key with
  | none => false
  | some value =>
    if isExpired now value then false
    else if value.vtype ≠ ValueType.TypeHash then false
    else
      match value.data with
      | GoData.ofHash h => (hmGet h field).isSome
      | _ => false

/-- `Cache.HGetAll` (a copy of the field table; Go iterates the map in
unspecified order, the association list fixes one such order). -/
def Cache.HGetAll (c : Cache) (key : Str) (now : Int) : List (Str × Str) :=
  match mapGet c.data key with
  | none => []
  | some value =>
    if isExpired now value then []
    else if value.vtype ≠ ValueType.TypeHash then []
    else
      match value.data with
      | GoData.ofHash h => h
      | _ => []

/-- The `Cache.LPush` insertion loop
(`for i := len(values)-1; i >= 0; i-- { list = append([]string{values[i]}, list...) }`):
iterating from the last argument down, each is prepended, so the fold from
the right reproduces the loop exactly. -/
def lpushLoop (values old : List Str) : List Str :=
  values.foldr (fun v acc => v :: acc) old

/-- `Cache.LPush`: creates the list when the key is absent or expired;
returns 0 without mutating on a non-list variant; otherwise runs the
insertion loop and returns the new length. -/
def Cache.LPush (c : Cache) (key : Str) (values : List Str) (now : Int) : Nat × Cache :=
  let fresh : Value :=
    { vtype := ValueType.TypeList, data := GoData.ofList [], expiresAt := none }
  let step : Value → List Str → Nat × Cache := fun value l =>
    let l' := lpushLoop values l
    (l'.length, ⟨mapPut c.data key { value with data := GoData.ofList l' }⟩)
  match mapGet c.data key with
  | none => step fresh []
  | some value =>
    if isExpired now value then step fresh []
    else if value.vtype ≠ ValueType.TypeList then (0, c)
    else
      match value.data with
      | GoData.ofList l => step value l
      | _ => (0, c)

/-- `Cache.RPush`: appends the values in order. -/
def Cache.RPush (c : Cache) (key : Str) (values : List Str) (now : Int) : Nat × Cache :=
  let fresh : Value :=
    { vtype := ValueType.TypeList, data := GoData.ofList [], expiresAt := none }
  let step : Value → List Str → Nat × Cache := fun value l =>
    let l' := l ++ values
    (l'.length, ⟨mapPut c.data key { value with data := GoData.ofList l' }⟩)
  match mapGet c.data key with
  | none => step fresh []
  | some value =>
    if isExpired now value then step fresh []
    else if value.vtype ≠ ValueType.TypeList then (0, c)
    else
      match value.data with
      | GoData.ofList l => step value l
      | _ => (0, c)

/-- `Cache.LPop`: removes and returns the head. -/
def Cache.LPop (c : Cache) (key : Str) (now : Int) : Str × Bool × Cache :=
  match mapGet c.data key with
  | none => ([], false, c)
  | some value =>
    if isExpired now value then ([], false, c)
    else if value.vtype ≠ ValueType.TypeList then ([], false, c)
    else
      match value.data with
      | GoData.ofList l =>
        match l with
        | [] => ([], false, c)
        | x :: rest =>
          (x, true, ⟨mapPut c.data key { value with data := GoData.ofList rest }⟩)
      | _ => ([], false, c)

/-- `Cache.RPop`: removes and returns the last element. -/
def Cache.RPop (c : Cache) (key : Str) (now : Int) : Str × Bool × Cache :=
  match mapGet c.data key with
  | none => ([], false, c)
  | some value =>
    if isExpired now value then ([], false, c)
    else if value.vtype ≠ ValueType.TypeList then ([], false, c)
    else
      match value.data with
      | GoData.ofList l =>
        match l.getLast? with
        | none => ([], false, c)
        | some x =>
          (x, true, ⟨mapPut c.data key { value with data := GoData.ofList l.dropLast }⟩)
      | _ => ([], false, c)

/-- `Cache.LLen`. -/
def Cache.LLen (c : Cache) (key : Str) (now : Int) : Nat :=
  match mapGet c.data key with
  | none => 0
  | some value =>
    if isExpired now value then 0
    else if value.vtype ≠ ValueType.TypeList then 0
    else
      match value.data with
      | GoData.ofList l => l.length
      | _ => 0

/-- The `Cache.SAdd` member loop: each member absent from the set is added
and counted. -/
def saddLoop : List Str → List Str → Nat × List Str
  | [], s => (0, s)
  | m :: ms, s =>
    if m ∈ s then saddLoop ms s
    else
      let r := saddLoop ms (s ++ [m])
      (r.1 + 1, r.2)

/-- The `Cache.SRem` member loop: each present member is removed and
counted. -/
def sremLoop : List Str → List Str → Nat × List Str
  | [], s => (0, s)
  | m :: ms, s =>
    if m ∈ s then
      let r := sremLoop ms (s.erase m)
      (r.1 + 1, r.2)
    else sremLoop ms s

/-- `Cache.SAdd`. -/
def Cache.SAdd (c : Cache) (key : Str) (members : List Str) (now : Int) : Nat × Cache :=
  let fresh : Value :=
    { vtype := ValueType.TypeSet, data := GoData.ofSet [], expiresAt := none }
  let step : Value → List Str → Nat × Cache := fun value s =>
    let r := saddLoop members s
    (r.1, ⟨mapPut c.data key { value with data := GoData.ofSet r.2 }⟩)
  match mapGet c.data key with
  | none => step fresh []
  | some value =>
    if isExpired now value then step fresh []
    else if value.vtype ≠ ValueType.TypeSet then (0, c)
    else
      match value.data with
      | GoData.ofSet s => step value s
      | _ => (0, c)

/-- `Cache.SRem`. -/
def Cache.SRem (c : Cache) (key : Str) (members : List Str) (now : Int) : Nat × Cache :=
  match mapGet c.data key with
  | none => (0, c)
  | some value =>
    if isExpired now value then (0, c)
    else if value.vtype ≠ ValueType.TypeSet then (0, c)
    else
      match value.data with
      | GoData.ofSet s =>
        let r := sremLoop members s
        (r.1, ⟨mapPut c.data key { value with data := GoData.ofSet r.2 }⟩)
      | _ => (0, c)

/-- `Cache.SMembers` (copy of the member collection; Go's map iteration
order is unspecified, the list fixes one such order). -/
def Cache.SMembers (c : Cache) (key : Str) (now : Int) : List Str :=
  match mapGet c.data key with
  | none => []
  | some value =>
    if isExpired now value then []
    else if value.vtype ≠ ValueType.TypeSet then []
    else
      match value.data with
      | GoData.ofSet s => s
      | _ => []

/-- `Cache.SIsMember`. -/
def Cache.SIsMember (c : Cache) (key member : Str) (now : Int) : Bool :=
  match mapGet c.data key with
  | none => false
  | some value =>
    if isExpired now value then false
    else if value.vtype ≠ ValueType.TypeSet then false
    else
      match value.data with
      | GoData.ofSet s => member ∈ s
      | _ => false

/-- One pass of the background reaper (`cleanupExpired` loop body): every
entry whose set expiration is strictly past is deleted. -/
def Cache.cleanupPass (c : Cache) (now : Int) : Cache :=
  ⟨c.data.filter (fun p => !isExpired now p.2)⟩

/-! ## Wire protocol data (pkg/protocol) and server dispatch -/

/-- protocol `Command`: opcode byte, key, arguments, TTL (`time.Duration`
nanoseconds). -/
structure Command where
  ty : Nat
  key : Str
  args : List Str
  ttl : Int
deriving DecidableEq, Repr

/-- Opcode constants `CmdGet` .. `CmdPing` (consecutive from 0). -/
def CmdGet : Nat := 0
def CmdSet : Nat := 1
def CmdDel : Nat := 2
def CmdExists : Nat := 3
def CmdIncr : Nat := 4
def CmdDecr : Nat := 5
def CmdIncrBy : Nat := 6
def CmdDecrBy : Nat := 7
def CmdExpire : Nat := 8
def CmdTTL : Nat := 9
def CmdPersist : Nat := 10
def CmdHGet : Nat := 11
def CmdHSet : Nat := 12
def CmdHDel : Nat := 13
def CmdHGetAll : Nat := 14
def CmdHExists : Nat := 15
def CmdLPush : Nat := 16
def CmdRPush : Nat := 17
def CmdLPop : Nat := 18
def CmdRPop : Nat := 19
def CmdLLen : Nat := 20
def CmdSAdd : Nat := 21
def CmdSRem : Nat := 22
def CmdSMembers : Nat := 23
def CmdSIsMember : Nat := 24
def CmdPing : Nat := 25

/-- protocol `Response`: the type tag together with the payload shape that
the server actually stores in the `interface{}` field for that tag
(`RespOK`, `RespError`+message, `RespString`+string, `RespInt`+int64,
`RespArray`+strings, `RespNil`). -/
inductive Resp
  | ok
  | err (msg : Str)
  | str (s : Str)
  | int (v : Int)
  | array (items : List Str)
  | nil
deriving DecidableEq, Repr

/-- server `handlePing`. -/
def handlePing (c : Cache) (_cmd : Command) (_now : Int) : Resp × Cache :=
  (Resp.str (strBytes "PONG"), c)

/-- server `handleGet`. -/
def handleGet (c : Cache) (cmd : Command) (now : Int) : Resp × Cache :=
  let r := Cache.Get c cmd.key now
  if r.2 then (Resp.str r.1, c) else (Resp.nil, c)

/-- server `handleSet`. -/
def handleSet (c : Cache) (cmd : Command) (now : Int) : Resp × Cache :=
  match cmd.args with
  | [] => (Resp.err (strBytes "SET requires a value"), c)
  | v :: _ => (Resp.ok, Cache.Set c cmd.key v cmd.ttl now)

/-- server `handleDel`. -/
def handleDel (c : Cache) (cmd : Command) (_now : Int) : Resp × Cache :=
  let r := Cache.Del c cmd.key
  (Resp.int (if r.1 then 1 else 0), r.2)

/-- server `handleExists`. -/
def handleExists (c : Cache) (cmd : Command) (now : Int) : Resp × Cache :=
  (Resp.int (if Cache.Exists c cmd.key now then 1 else 0), c)

/-- server `handleIncr`. -/
def handleIncr (c : Cache) (cmd : Command) (now : Int) : Resp × Cache :=
  match Cache.Incr c cmd.key now with
  | (Except.ok v, c') => (Resp.int v, c')
  | (Except.error e, c') => (Resp.err e, c')

/-- server `handleDecr`. -/
def handleDecr (c : Cache) (cmd : Command) (now : Int) : Resp × Cache :=
  match Cache.Decr c cmd.key now with
  | (Except.ok v, c') => (Resp.int v, c')
  | (Except.error e, c') => (Resp.err e, c')

/-- server `handleIncrBy`: arity check, then the delta silently defaults
to 1 when `strconv.ParseInt` fails on the first argument. -/
def handleIncrBy (c : Cache) (cmd : Command) (now : Int) : Resp × Cache :=
  match cmd.args with
  | [] => (Resp.err (strBytes "INCRBY requires a delta value"), c)
  | a :: _ =>
    let delta : Int :=
      match parseInt a with
      | some d => d
      | none => 1
    match Cache.IncrBy c cmd.key delta now with
    | (Except.ok v, c') => (Resp.int v, c')
    | (Except.error e, c') => (Resp.err e, c')

/-- server `handleDecrBy`: like `handleIncrBy` but the parsed delta is
negated with Go `int64` semantics (`delta = -d` wraps at the minimum);
an unparseable delta again silently stays 1 (not -1). -/
def handleDecrBy (c : Cache) (cmd : Command) (now : Int) : Resp × Cache :=
  match cmd.args with
  | [] => (Resp.err (strBytes "DECRBY requires a delta value"), c)
  | a :: _ =>
    let delta : Int :=
      match parseInt a with
      | some d => wrap64 (-d)
      | none => 1
    match Cache.IncrBy c cmd.key delta now with
    | (Except.ok v, c') => (Resp.int v, c')
    | (Except.error e, c') => (Resp.err e, c')

/-- server `handleExpire`. -/
def handleExpire (c : Cache) (cmd : Command) (now : Int) : Resp × Cache :=
  let r := Cache.Expire c cmd.key cmd.ttl now
  (Resp.int (if r.1 then 1 else 0), r.2)

/-- server `handleTTL` (`int64(ttl.Seconds())`). -/
def handleTTL (c : Cache) (cmd : Command) (now : Int) : Resp × Cache :=
  (Resp.int (durSeconds (Cache.TTL c cmd.key now)), c)

/-- server `handlePersist`. -/
def handlePersist (c : Cache) (cmd : Command) (now : Int) : Resp × Cache :=
  let r := Cache.Persist c cmd.key now
  (Resp.int (if r.1 then 1 else 0), r.2)

/-- server `handleHGet`. -/
def handleHGet (c : Cache) (cmd : Command) (now : Int) : Resp × Cache :=
  match cmd.args with
  | [] => (Resp.err (strBytes "HGET requires a field"), c)
  | f :: _ =>
    let r := Cache.HGet c cmd.key f now
    if r.2 then (Resp.str r.1, c) else (Resp.nil, c)

/-- server `handleHSet` (arity `minHashFields = 2`). -/
def handleHSet (c : Cache) (cmd : Command) (now : Int) : Resp × Cache :=
  match cmd.args with
  | f :: v :: _ => (Resp.ok, Cache.HSet c cmd.key f v now)
  | _ => (Resp.err (strBytes "HSET requires field and value"), c)

/-- server `handleHDel`. -/
def handleHDel (c : Cache) (cmd : Command) (now : Int) : Resp × Cache :=
  match cmd.args with
  | [] => (Resp.err (strBytes "HDEL requires a field"), c)
  | f :: _ =>
    let r := Cache.HDel c cmd.key f now
    (Resp.int (if r.1 then 1 else 0), r.2)

/-- server `handleHExists`. -/
def handleHExists (c : Cache) (cmd : Command) (now : Int) : Resp × Cache :=
  match cmd.args with
  | [] => (Resp.err (strBytes "HEXISTS requires a field"), c)
  | f :: _ =>
    (Resp.int (if Cache.HExists c cmd.key f now then 1 else 0), c)

/-- server `handleHGetAll`: alternating field/value strings. -/
def handleHGetAll (c : Cache) (cmd : Command) (now : Int) : Resp × Cache :=
  (Resp.array ((Cache.HGetAll c cmd.key now).flatMap (fun p => [p.1, p.2])), c)

/-- server `handleLPush`. -/
def handleLPush (c : Cache) (cmd : Command) (now : Int) : Resp × Cache :=
  match cmd.args with
  | [] => (Resp.err (strBytes "LPUSH requires at least one value"), c)
  | _ =>
    let r := Cache.LPush c cmd.key cmd.args now
    (Resp.int r.1, r.2)

/-- server `handleRPush`. -/
def handleRPush (c : Cache) (cmd : Command) (now : Int) : Resp × Cache :=
  match cmd.args with
  | [] => (Resp.err (strBytes "RPUSH requires at least one value"), c)
  | _ =>
    let r := Cache.RPush c cmd.key cmd.args now
    (Resp.int r.1, r.2)

/-- server `handleLPop`. -/
def handleLPop (c : Cache) (cmd : Command) (now : Int) : Resp × Cache :=
  match Cache.LPop c cmd.key now with
  | (v, true, c') => (Resp.str v, c')
  | (_, false, c') => (Resp.nil, c')

/-- server `handleRPop`. -/
def handleRPop (c : Cache) (cmd : Command) (now : Int) : Resp × Cache :=
  match Cache.RPop c cmd.key now with
  | (v, true, c') => (Resp.str v, c')
  | (_, false, c') => (Resp.nil, c')

/-- server `handleLLen`. -/
def handleLLen (c : Cache) (cmd : Command) (now : Int) : Resp × Cache :=
  (Resp.int (Cache.LLen c cmd.key now), c)

/-- server `handleSAdd`. -/
def handleSAdd (c : Cache) (cmd : Command) (now : Int) : Resp × Cache :=
  match cmd.args with
  | [] => (Resp.err (strBytes "SADD requires at least one member"), c)
  | _ =>
    let r := Cache.SAdd c cmd.key cmd.args now
    (Resp.int r.1, r.2)

/-- server `handleSRem`. -/
def handleSRem (c : Cache) (cmd : Command) (now : Int) : Resp × Cache :=
  match cmd.args with
  | [] => (Resp.err (strBytes "SREM requires at least one member"), c)
  | _ =>
    let r := Cache.SRem c cmd.key cmd.args now
    (Resp.int r.1, r.2)

/-- server `handleSMembers`. -/
def handleSMembers (c : Cache) (cmd : Command) (now : Int) : Resp × Cache :=
  (Resp.array (Cache.SMembers c cmd.key now), c)

/-- server `handleSIsMember`. -/
def handleSIsMember (c : Cache) (cmd : Command) (now : Int) : Resp × Cache :=
  match cmd.args with
  | [] => (Resp.err (strBytes "SISMEMBER requires a member"), c)
  | m :: _ =>
    (Resp.int (if Cache.SIsMember c cmd.key m now then 1 else 0), c)

/-- server `executeCommand`: handler table dispatch with the
unknown-command error. -/
def executeCommand (c : Cache) (cmd : Command) (now : Int) : Resp × Cache :=
  if cmd.ty = CmdGet then handleGet c cmd now
  else if cmd.ty = CmdSet then handleSet c cmd now
  else if cmd.ty = CmdDel then handleDel c cmd now
  else if cmd.ty = CmdExists then handleExists c cmd now
  else if cmd.ty = CmdIncr then handleIncr c cmd now
  else if cmd.ty = CmdDecr then handleDecr c cmd now
  else if cmd.ty = CmdIncrBy then handleIncrBy c cmd now
  else if cmd.ty = CmdDecrBy then handleDecrBy c cmd now
  else if cmd.ty = CmdExpire then handleExpire c cmd now
  else if cmd.ty = CmdTTL then handleTTL c cmd now
  else if cmd.ty = CmdPersist then handlePersist c cmd now
  else if cmd.ty = CmdHGet then handleHGet c cmd now
  else if cmd.ty = CmdHSet then handleHSet c cmd now
  else if cmd.ty = CmdHDel then handleHDel c cmd now
  else if cmd.ty = CmdHGetAll then handleHGetAll c cmd now
  else if cmd.ty = CmdHExists then handleHExists c cmd now
  else if cmd.ty = CmdLPush then handleLPush c cmd now
  else if cmd.ty = CmdRPush then handleRPush c cmd now
  else if cmd.ty = CmdLPop then handleLPop c cmd now
  else if cmd.ty = CmdRPop then handleRPop c cmd now
  else if cmd.ty = CmdLLen then handleLLen c cmd now
  else if cmd.ty = CmdSAdd then handleSAdd c cmd now
  else if cmd.ty = CmdSRem then handleSRem c cmd now
  else if cmd.ty = CmdSMembers then handleSMembers c cmd now
  else if cmd.ty = CmdSIsMember then handleSIsMember c cmd now
  else if cmd.ty = CmdPing then handlePing c cmd now
  else (Resp.err (strBytes "unknown command: " ++ natDec cmd.ty), c)

/-! ## Wire codec (pkg/protocol, varint payload encoding) -/

/-- Go `binary.AppendUvarint`: little-endian base-128 with continuation
bits.  The fuel (10 bytes suffice for any `uint64`, the only values the Go
code can pass) only bounds the recursion. -/
def uvarintEncAux : Nat → Nat → List Nat
  | 0, _ => []
  | fuel + 1, n =>
    if n < 128 then [n] else (n % 128 + 128) :: uvarintEncAux fuel (n / 128)

/-- Unsigned varint encoding of a `uint64` value. -/
def uvarintEnc (n : Nat) : List Nat := uvarintEncAux 10 n

/-- Go `binary.Uvarint` inner loop: accumulator `x`, shift `s`, byte index
`i`; `none` models both results with `n <= 0` (truncated input and
overflow), which is all the callers distinguish.  The accumulation
`x | uint64(b) << s` is `uint64` arithmetic, hence the reduction mod
`2^64` of the shifted byte. -/
def uvarintDecAux : List Nat → Nat → Nat → Nat → Option (Nat × Nat)
  | [], _, _, _ => none
  | b :: rest, x, s, i =>
    if i = 10 then none
    else if b % 256 < 128 then
      if i = 9 ∧ 1 < b % 256 then none
      else some (x ||| (b % 256) <<< s % 2 ^ 64, i + 1)
    else uvarintDecAux rest (x ||| (b % 256 % 128) <<< s % 2 ^ 64) (s + 7) (i + 1)

/-- Go `binary.Uvarint`: value and number of bytes consumed. -/
def uvarintDec (data : List Nat) : Option (Nat × Nat) := uvarintDecAux data 0 0 0

/-- The zigzag step of Go `binary.AppendVarint`
(`ux := uint64(x) << 1; if x < 0 { ux = ^ux }`), written out for the
`int64` range. -/
def zigzagEnc (v : Int) : Nat :=
  if 0 ≤ v then (2 * v).toNat else (-2 * v - 1).toNat

/-- The zigzag step of Go `binary.Varint`
(`x := int64(ux >> 1); if ux & 1 != 0 { x = ^x }`). -/
def zigzagDec (u : Nat) : Int :=
  if u % 2 = 0 then (u / 2 : Nat) else -((u / 2 : Nat) : Int) - 1

/-- Go `binary.AppendVarint`: zigzag then unsigned varint. -/
def varintEnc (v : Int) : List Nat := uvarintEnc (zigzagEnc v)

/-- Go `binary.Varint`. -/
def varintDec (data : List Nat) : Option (Int × Nat) :=
  (uvarintDec data).map (fun r => (zigzagDec r.1, r.2))

/-- protocol `Command.Serialize`: type byte, length-prefixed key,
counted length-prefixed args, TTL in whole seconds
(`uint64(c.TTL.Seconds())`, exact for the second-granular non-negative
durations of well-formed commands). -/
def serializeCommand (c : Command) : List Nat :=
  [c.ty % 256]
    ++ uvarintEnc c.key.length ++ c.key
    ++ uvarintEnc c.args.length
    ++ c.args.flatMap (fun a => uvarintEnc a.length ++ a)
    ++ uvarintEnc (Int.tdiv c.ttl nsPerSec).toNat

/-- protocol `deserializeString`: length varint, bounds checks, then the
byte run; returns the string and the new offset into `data`. -/
def deserializeString (data : List Nat) (offset : Nat) : Option (Str × Nat) :=
  match uvarintDec (data.drop offset) with
  | none => none
  | some (strLen, n) =>
    if strLen > data.length then none
    else
      let o := offset + n
      if o + strLen > data.length then none
      else some (((data.drop o).take strLen, o + strLen))

/-- protocol `deserializeStringSlice` inner loop over the announced
count. -/
def deserializeStringsLoop (data : List Nat) : Nat → Nat → Option (List Str × Nat)
  | 0, offset => some ([], offset)
  | count + 1, offset =>
    match deserializeString data offset with
    | none => none
    | some (s, o) =>
      match deserializeStringsLoop data count o with
      | none => none
      | some (rest, o') => some (s :: rest, o')

/-- protocol `deserializeStringSlice`: count varint then that many
length-prefixed strings. -/
def deserializeStringSlice (data : List Nat) (offset : Nat) :
    Option (List Str × Nat) :=
  match uvarintDec (data.drop offset) with
  | none => none
  | some (argsCount, n) => deserializeStringsLoop data argsCount (offset + n)

/-- protocol `deserializeTTL`: seconds varint, `maxInt64` guard, scaled by
`time.Second` with Go `int64` multiplication. -/
def deserializeTTL (data : List Nat) (offset : Nat) : Option Int :=
  match uvarintDec (data.drop offset) with
  | none => none
  | some (ttlSeconds, _) =>
    if ttlSeconds > 2 ^ 63 - 1 then none
    else some (wrap64 ((ttlSeconds : Int) * nsPerSec))

/-- protocol `DeserializeCommand`. -/
def deserializeCommand (data : List Nat) : Option Command :=
  match data with
  | [] => none
  | t :: _ =>
    match deserializeString data 1 with
    | none => none
    | some (key, o1) =>
      match deserializeStringSlice data o1 with
      | none => none
      | some (args, o2) =>
        match deserializeTTL data o2 with
        | none => none
        | some ttl => some { ty := t, key := key, args := args, ttl := ttl }

/-- protocol `Response.Serialize`: type byte then the variant body.  (For
each tag the payload shape is the one the Lean `Resp` constructor carries;
a Go `Response` whose `Data` does not match its tag serializes to the bare
type byte and is exactly the ill-formed case excluded by the round-trip
claim.) -/
def serializeResponse (r : Resp) : List Nat :=
  match r with
  | Resp.ok => [0]
  | Resp.err msg => 1 :: (uvarintEnc msg.length ++ msg)
  | Resp.str s => 2 :: (uvarintEnc s.length ++ s)
  | Resp.int v => 3 :: varintEnc v
  | Resp.array items =>
    4 :: (uvarintEnc items.length ++ items.flatMap (fun a => uvarintEnc a.length ++ a))
  | Resp.nil => [5]

/-- protocol `DeserializeResponse`.  A type byte outside 0..5 (never
produced by `Response.Serialize`) yields in Go a payload-free `Response`
carrying the unknown tag; that shape has no counterpart in the `Resp` sum
and is modelled as `none`. -/
def deserializeResponse (data : List Nat) : Option Resp :=
  match data with
  | [] => none
  | t :: _ =>
    if t = 0 then some Resp.ok
    else if t = 5 then some Resp.nil
    else if t = 1 then
      match deserializeString data 1 with
      | none => none
      | some (msg, _) => some (Resp.err msg)
    else if t = 2 then
      match deserializeString data 1 with
      | none => none
      | some (s, _) => some (Resp.str s)
    else if t = 3 then
      match varintDec (data.drop 1) with
      | none => none
      | some (v, _) => some (Resp.int v)
    else if t = 4 then
      match deserializeStringSlice data 1 with
      | none => none
      | some (items, _) => some (Resp.array items)
    else none

/-! ## SHA-256 (crypto/sha256, as used by the hash ring) and the
consistent hash ring (pkg/hash/consistent.go) -/

/-- Reduction to a 32-bit word. -/
def m32 (x : Nat) : Nat := x % 2 ^ 32

/-- 32-bit right rotation. -/
def rotr (n x : Nat) : Nat := ((x >>> n) ||| (x <<< (32 - n))) % 2 ^ 32

/-- SHA-256 `Ch`. -/
def shaCh (x y z : Nat) : Nat := (x &&& y) ^^^ ((x ^^^ (2 ^ 32 - 1)) &&& z)

/-- SHA-256 `Maj`. -/
def shaMaj (x y z : Nat) : Nat := (x &&& y) ^^^ (x &&& z) ^^^ (y &&& z)

/-- SHA-256 `Σ0`. -/
def bsig0 (x : Nat) : Nat := rotr 2 x ^^^ rotr 13 x ^^^ rotr 22 x

/-- SHA-256 `Σ1`. -/
def bsig1 (x : Nat) : Nat := rotr 6 x ^^^ rotr 11 x ^^^ rotr 25 x

/-- SHA-256 `σ0`. -/
def ssig0 (x : Nat) : Nat := rotr 7 x ^^^ rotr 18 x ^^^ (x >>> 3)

/-- SHA-256 `σ1`. -/
def ssig1 (x : Nat) : Nat := rotr 17 x ^^^ rotr 19 x ^^^ (x >>> 10)

/-- SHA-256 round constants. -/
def shaK : List Nat :=
  [1116352408, 1899447441, 3049323471, 3921009573, 961987163,
   1508970993, 2453635748, 2870763221, 3624381080, 310598401,
   607225278, 1426881987, 1925078388, 2162078206, 2614888103,
   3248222580, 3835390401, 4022224774, 264347078, 604807628,
   770255983, 1249150122, 1555081692, 1996064986, 2554220882,
   2821834349, 2952996808, 3210313671, 3336571891, 3584528711,
   113926993, 338241895, 666307205, 773529912, 1294757372,
   1396182291, 1695183700, 1986661051, 2177026350, 2456956037,
   2730485921, 2820302411, 3259730800, 3345764771, 3516065817,
   3600352804, 4094571909, 275423344, 430227734, 506948616,
   659060556, 883997877, 958139571, 1322822218, 1537002063,
   1747873779, 1955562222, 2024104815, 2227730452, 2361852424,
   2428436474, 2756734187, 3204031479, 3329325298]

/-- SHA-256 initial hash state. -/
def shaH0 : List Nat :=
  [1779033703, 3144134277, 1013904242, 2773480762,
   1359893119, 2600822924, 528734635, 1541459225]

/-- Message padding: `0x80`, zeros to 56 mod 64, 8-byte big-endian bit
length. -/
def shaPad (msg : Str) : Str :=
  let padLen := (64 + 55 - msg.length % 64) % 64
  let bitLen := msg.length * 8 % 2 ^ 64
  msg ++ [0x80] ++ List.replicate padLen 0 ++
    [bitLen / 2 ^ 56 % 256, bitLen / 2 ^ 48 % 256, bitLen / 2 ^ 40 % 256,
     bitLen / 2 ^ 32 % 256, bitLen / 2 ^ 24 % 256, bitLen / 2 ^ 16 % 256,
     bitLen / 2 ^ 8 % 256, bitLen % 256]

/-- Big-endian 32-bit words of a byte list. -/
def toWords : List Nat → List Nat
  | b0 :: b1 :: b2 :: b3 :: rest =>
    (b0 * 2 ^ 24 + b1 * 2 ^ 16 + b2 * 2 ^ 8 + b3) :: toWords rest
  | _ => []

/-- Chunks of 16 words (the fuel bounds the recursion by the word
count). -/
def chunk16Aux : Nat → List Nat → List (List Nat)
  | 0, _ => []
  | fuel + 1, ws =>
    match ws with
    | [] => []
    | _ => ws.take 16 :: chunk16Aux fuel (ws.drop 16)

/-- Chunks of 16 words. -/
def chunk16 (ws : List Nat) : List (List Nat) := chunk16Aux ws.length ws

/-- Message-schedule extension: appends one word per step. -/
def extendW : Nat → List Nat → List Nat
  | 0, w => w
  | fuel + 1, w =>
    let i := w.length
    let wi := m32 (ssig1 (w.getD (i - 2) 0) + w.getD (i - 7) 0 +
                   ssig0 (w.getD (i - 15) 0) + w.getD (i - 16) 0)
    extendW fuel (w ++ [wi])

/-- The 64 compression rounds over the zipped (constant, schedule word)
list. -/
def shaRounds : List (Nat × Nat) → List Nat → List Nat
  | [], st => st
  | (k, w) :: rest, st =>
    match st with
    | [a, b, c, d, e, f, g, hh] =>
      let t1 := m32 (hh + bsig1 e + shaCh e f g + k + w)
      let t2 := m32 (bsig0 a + shaMaj a b c)
      shaRounds rest [m32 (t1 + t2), a, b, c, m32 (d + t1), e, f, g]
    | _ => st

/-- One SHA-256 block step. -/
def shaBlock (h block : List Nat) : List Nat :=
  let w := extendW 48 block
  let st := shaRounds (shaK.zip w) h
  (h.zip st).map (fun p => m32 (p.1 + p.2))

/-- SHA-256 digest (32 bytes). -/
def sha256 (msg : Str) : Str :=
  let blocks := chunk16 (toWords (shaPad msg))
  let hh := blocks.foldl shaBlock shaH0
  hh.flatMap (fun w => [w / 2 ^ 24 % 256, w / 2 ^ 16 % 256, w / 2 ^ 8 % 256, w % 256])

/-- `ConsistentHash.hashKey`: big-endian fold of the first four SHA-256
digest bytes. -/
def hashKey (key : Str) : Nat :=
  let h := sha256 key
  h.getD 0 0 <<< 24 ||| h.getD 1 0 <<< 16 ||| h.getD 2 0 <<< 8 ||| h.getD 3 0

/-- consistent.go `ConsistentHash`: the `map[uint32]string` ring, the
sorted hash array, the node set and the virtual-node count. -/
structure ConsistentHash where
  ring : List (Nat × Str)
  sortedHashes : List Nat
  nodes : List Str
  virtualNodes : Nat
deriving DecidableEq, Repr

/-- Ring map lookup. -/
def ringGet : List (Nat × Str) → Nat → Option Str
  | [], _ => none
  | (h', n) :: rest, h => if h' = h then some n else ringGet rest h

/-- Ring map overwriting insert. -/
def ringPut : List (Nat × Str) → Nat → Str → List (Nat × Str)
  | [], h, n => [(h, n)]
  | (h', n') :: rest, h, n =>
    if h' = h then (h, n) :: rest else (h', n') :: ringPut rest h n

/-- Insertion into a sorted list. -/
def insElem (x : Nat) : List Nat → List Nat
  | [] => [x]
  | y :: ys => if x ≤ y then x :: y :: ys else y :: insElem x ys

/-- Sorting of the hash array (`sort.Slice` with `<`: any sort produces
the same list of naturals, duplicates included). -/
def insSort : List Nat → List Nat
  | [] => []
  | x :: xs => insElem x (insSort xs)

/-- `hash.New`. -/
def ConsistentHash.New (virtualNodes : Int) : ConsistentHash :=
  { ring := [], sortedHashes := [], nodes := [],
    virtualNodes := if virtualNodes ≤ 0 then 150 else virtualNodes.toNat }

/-- The virtual positions of a node: hashes of `"{node}:{i}"` for
`i < count`. -/
def virtualHashes (node : Str) (count : Nat) : List Nat :=
  (List.range count).map (fun i => hashKey (node ++ 58 :: natDec i))

/-- `ConsistentHash.AddNode`: no-op when present; otherwise inserts the
node, writes every virtual hash into the ring map, appends them to the
hash array and re-sorts it. -/
def ConsistentHash.AddNode (c : ConsistentHash) (node : Str) : ConsistentHash :=
  if node ∈ c.nodes then c
  else
    let hs := virtualHashes node c.virtualNodes
    { ring := hs.foldl (fun r h => ringPut r h node) c.ring
      sortedHashes := insSort (c.sortedHashes ++ hs)
      nodes := node :: c.nodes
      virtualNodes := c.virtualNodes }

/-- `ConsistentHash.search`: `sort.Search` returns the smallest index at
which the monotone predicate `sortedHashes[i] >= hash` holds (that is the
documented contract of the binary search; for the sorted hash array the
predicate is monotone and the smallest such index is `findIdx`), with the
wrap to 0 when no index qualifies. -/
def ConsistentHash.search (c : ConsistentHash) (hash : Nat) : Nat :=
  let idx := c.sortedHashes.findIdx (fun x => hash ≤ x)
  if idx = c.sortedHashes.length then 0 else idx

/-- `ConsistentHash.GetNode`: empty string on an empty ring, otherwise the
ring entry at the selected position (a Go map read of an absent key gives
`""`; under the ring invariant the key is always present). -/
def ConsistentHash.GetNode (c : ConsistentHash) (key : Str) : Str :=
  if c.ring.length = 0 then []
  else
    let h := hashKey key
    let idx := c.search h
    match ringGet c.ring (c.sortedHashes.getD idx 0) with
    | some node => node
    | none => []

/-- The position the specification's lookup selects: the first (smallest)
hash in the sorted array that is ≥ the key's hash, wrapping to index 0
when none qualifies. -/
def selHash (l : List Nat) (h : Nat) : Nat :=
  match l.find? (fun x => h ≤ x) with
  | some v => v
  | none => l.getD 0 0

/-- The specification's description of `lookup` (spec §4.A): binary search
for the first position with hash ≥ H(key), wrap to index 0 if none, empty
when the ring is empty; `H` is `hashKey`, the big-endian fold of the first
four SHA-256 bytes.  Stated from the spec's words, to be compared with
`ConsistentHash.GetNode`. -/
def lookupSpec (c : ConsistentHash) (key : Str) : Str :=
  if c.ring.length = 0 then []
  else
    match ringGet c.ring (selHash c.sortedHashes (hashKey key)) with
    | some node => node
    | none => []

/-! ## Well-formedness predicates and the operation alphabet used by the
claims -/

/-- Well-formed wire command: the opcode fits a byte (`CommandType` is
`uint8`), lengths fit `uint64` (in Go they are slice lengths, hence always
below `2^63`), and the TTL is a non-negative whole number of seconds small
enough (< 2^53 ns) that `uint64(ttl.Seconds())` is exact. -/
def WFCommand (c : Command) : Prop :=
  c.ty < 256 ∧ c.key.length < 2 ^ 64 ∧ c.args.length < 2 ^ 64 ∧
  (∀ a ∈ c.args, a.length < 2 ^ 64) ∧
  ∃ s : Nat, c.ttl = (s : Int) * nsPerSec ∧ (s : Int) * nsPerSec < 2 ^ 53

/-- Well-formed wire response: the payload shape matches the tag (already
enforced by the `Resp` constructors), lengths fit `uint64` and the integer
fits `int64`. -/
def WFResp : Resp → Prop
  | Resp.ok => True
  | Resp.nil => True
  | Resp.err m => m.length < 2 ^ 64
  | Resp.str s => s.length < 2 ^ 64
  | Resp.int v => -2 ^ 63 ≤ v ∧ v ≤ 2 ^ 63 - 1
  | Resp.array items => items.length < 2 ^ 64 ∧ ∀ a ∈ items, a.length < 2 ^ 64

/-- Well-formed ring state: the hash array is sorted (as `AddNode`
re-establishes after every mutation) and every listed hash is present in
the ring map. -/
def ringWF (c : ConsistentHash) : Prop :=
  List.Pairwise (· ≤ ·) c.sortedHashes ∧
  ∀ h ∈ c.sortedHashes, (ringGet c.ring h).isSome = true

/-- The state-mutating store operations (`Incr`/`Decr` are the
`IncrBy 1` / `IncrBy (-1)` instances; read-only operations do not touch
the table).  Each carries the instant at which it runs. -/
inductive CacheOp
  | set (k v : Str) (ttl now : Int)
  | del (k : Str)
  | incrBy (k : Str) (d now : Int)
  | expire (k : Str) (ttl now : Int)
  | persist (k : Str) (now : Int)
  | hset (k f v : Str) (now : Int)
  | hdel (k f : Str) (now : Int)
  | lpush (k : Str) (vs : List Str) (now : Int)
  | rpush (k : Str) (vs : List Str) (now : Int)
  | lpop (k : Str) (now : Int)
  | rpop (k : Str) (now : Int)
  | sadd (k : Str) (ms : List Str) (now : Int)
  | srem (k : Str) (ms : List Str) (now : Int)
  | cleanup (now : Int)

/-- State effect of one operation. -/
def applyOp (c : Cache) : CacheOp → Cache
  | CacheOp.set k v ttl now => Cache.Set c k v ttl now
  | CacheOp.del k => (Cache.Del c k).2
  | CacheOp.incrBy k d now => (Cache.IncrBy c k d now).2
  | CacheOp.expire k ttl now => (Cache.Expire c k ttl now).2
  | CacheOp.persist k now => (Cache.Persist c k now).2
  | CacheOp.hset k f v now => Cache.HSet c k f v now
  | CacheOp.hdel k f now => (Cache.HDel c k f now).2
  | CacheOp.lpush k vs now => (Cache.LPush c k vs now).2
  | CacheOp.rpush k vs now => (Cache.RPush c k vs now).2
  | CacheOp.lpop k now => (Cache.LPop c k now).2.2
  | CacheOp.rpop k now => (Cache.RPop c k now).2.2
  | CacheOp.sadd k ms now => (Cache.SAdd c k ms now).2
  | CacheOp.srem k ms now => (Cache.SRem c k ms now).2
  | CacheOp.cleanup now => Cache.cleanupPass c now

/-- Running a sequence of operations from a state. -/
def runOps (c : Cache) (ops : List CacheOp) : Cache :=
  ops.foldl applyOp c

/-- The type tag of a `Value` agrees with the dynamic shape of its data
(a failed Go type assertion is exactly a violation of this). -/
def typeMatches : ValueType → GoData → Bool
  | ValueType.TypeString, GoData.ofString _ => true
  | ValueType.TypeHash, GoData.ofHash _ => true
  | ValueType.TypeList, GoData.ofList _ => true
  | ValueType.TypeSet, GoData.ofSet _ => true
  | _, _ => false

/-- Store-wide tag/shape agreement. -/
def TypeOK (c : Cache) : Prop :=
  ∀ p ∈ c.data, typeMatches p.2.vtype p.2.data = true

/-! ## Basic lemmas: 64-bit wrap, decimal text, association maps -/

/-- Values already in the `int64` range are fixed by the wrap. -/
theorem wrap64_eq_self {x : Int} (h1 : -2 ^ 63 ≤ x) (h2 : x ≤ 2 ^ 63 - 1) :
    wrap64 x = x := by
  unfold wrap64
  omega

/-- Every digit byte produced by `natDecAux` is ASCII `0`..`9`. -/
theorem natDecAux_digits : ∀ fuel n, ∀ d ∈ natDecAux fuel n, 48 ≤ d ∧ d ≤ 57 := by
  intro fuel
  induction fuel with
  | zero => intro n d hd; simp [natDecAux] at hd
  | succ fuel ih =>
    intro n d hd
    by_cases h : n < 10
    · simp [natDecAux, h] at hd
      omega
    · simp [natDecAux, h] at hd
      rcases hd with hd | hd
      · exact ih _ _ hd
      · omega

/-- `natDecAux` never returns the empty list (with positive fuel). -/
theorem natDecAux_ne_nil (fuel n : Nat) : natDecAux (fuel + 1) n ≠ [] := by
  by_cases h : n < 10 <;> simp [natDecAux, h]

/-- Folding the parse accumulator over the digits of `n` recovers `n`
(positionally) provided the fuel covers the magnitude. -/
theorem natDecAux_foldl : ∀ fuel n, n < 10 ^ fuel → ∀ a : Nat,
    (natDecAux fuel n).foldl (fun acc d => acc * 10 + (d - 48)) a =
      a * 10 ^ (natDecAux fuel n).length + n := by
  intro fuel
  induction fuel with
  | zero =>
    intro n hn a
    have hz : n = 0 := by simpa using hn
    subst hz
    simp [natDecAux]
  | succ fuel ih =>
    intro n hn a
    by_cases h : n < 10
    · simp only [natDecAux, if_pos h, List.foldl_cons, List.foldl_nil,
        List.length_cons, List.length_nil, zero_add, pow_one]
      omega
    · have hdiv : n / 10 < 10 ^ fuel := by
        rw [Nat.div_lt_iff_lt_mul (by norm_num)]
        calc n < 10 ^ (fuel + 1) := hn
        _ = 10 ^ fuel * 10 := by ring
      simp only [natDecAux, if_neg h, List.foldl_append, List.foldl_cons,
        List.foldl_nil, List.length_append, List.length_cons, List.length_nil]
      rw [ih _ hdiv]
      have hmod : 48 + n % 10 - 48 = n % 10 := by omega
      rw [hmod, zero_add, pow_succ]
      have hdm := Nat.div_add_mod n 10
      set L := (natDecAux fuel (n / 10)).length
      calc (a * 10 ^ L + n / 10) * 10 + n % 10
          = a * (10 ^ L * 10) + (n / 10 * 10 + n % 10) := by ring
      _ = a * (10 ^ L * 10) + n := by omega

/-- The int64 magnitudes the Go code formats are covered by the fuel. -/
theorem natDec_spec (n : Nat) (hn : n ≤ 2 ^ 63) :
    (∀ d ∈ natDec n, 48 ≤ d ∧ d ≤ 57) ∧ natDec n ≠ [] ∧
      (natDec n).foldl (fun acc d => acc * 10 + (d - 48)) 0 = n := by
  have hlt : n < 10 ^ 24 := by
    calc n ≤ 2 ^ 63 := hn
    _ < 10 ^ 24 := by norm_num
  refine ⟨natDecAux_digits 24 n, natDecAux_ne_nil 23 n, ?_⟩
  have h := natDecAux_foldl 24 n hlt 0
  simpa using h

/-- `parseInt` on a pure digit string (no sign) returns the folded value
when it fits `int64`. -/
theorem parseInt_digits {l : Str} (hne : l ≠ [])
    (hdig : ∀ d ∈ l, 48 ≤ d ∧ d ≤ 57)
    (hbound : l.foldl (fun acc d => acc * 10 + (d - 48)) 0 ≤ 2 ^ 63 - 1) :
    parseInt l = some ((l.foldl (fun acc d => acc * 10 + (d - 48)) 0 : Nat) : Int) := by
  cases l with
  | nil => exact absurd rfl hne
  | cons c rest =>
    have hc := hdig c (List.mem_cons_self c rest)
    have hall : (c :: rest).all (fun d => 48 ≤ d && d ≤ 57) = true := by
      rw [List.all_eq_true]
      intro d hd
      have := hdig d hd
      simp only [Bool.and_eq_true, decide_eq_true_eq]
      omega
    dsimp only [parseInt]
    rw [if_neg (show ¬c = 43 by omega), if_neg (show ¬c = 45 by omega)]
    simp only [reduceCtorEq, if_false, hall, if_true, Bool.false_eq_true, if_pos hbound]

/-- `parseInt` on a minus sign followed by digits returns the negated
folded value when its magnitude is at most `2^63`. -/
theorem parseInt_neg_digits {l : Str} (hne : l ≠ [])
    (hdig : ∀ d ∈ l, 48 ≤ d ∧ d ≤ 57)
    (hbound : l.foldl (fun acc d => acc * 10 + (d - 48)) 0 ≤ 2 ^ 63) :
    parseInt (45 :: l) =
      some (-((l.foldl (fun acc d => acc * 10 + (d - 48)) 0 : Nat) : Int)) := by
  have hall : l.all (fun d => 48 ≤ d && d ≤ 57) = true := by
    rw [List.all_eq_true]
    intro d hd
    have := hdig d hd
    simp only [Bool.and_eq_true, decide_eq_true_eq]
    omega
  dsimp only [parseInt]
  rw [if_neg (show ¬(45 : Nat) = 43 by omega), if_pos rfl]
  simp only [if_neg hne, hall, if_true, if_pos hbound]

/-- Round-trip of the decimal codec on the `int64` range:
`strconv.ParseInt` inverts `strconv.FormatInt`. -/
theorem parseInt_formatInt {v : Int} (h1 : -2 ^ 63 ≤ v) (h2 : v ≤ 2 ^ 63 - 1) :
    parseInt (formatInt v) = some v := by
  by_cases hneg : v < 0
  · have hrange : (-v).toNat ≤ 2 ^ 63 := by omega
    obtain ⟨hdig, hne, hfold⟩ := natDec_spec (-v).toNat hrange
    unfold formatInt
    rw [if_pos hneg, parseInt_neg_digits hne hdig (by rw [hfold]; exact hrange)]
    rw [hfold]
    congr 1
    omega
  · have hrange : v.toNat ≤ 2 ^ 63 := by omega
    obtain ⟨hdig, hne, hfold⟩ := natDec_spec v.toNat hrange
    unfold formatInt
    rw [if_neg hneg, parseInt_digits hne hdig (by rw [hfold]; omega)]
    rw [hfold]
    congr 1
    omega

/-- `parseInt` only returns values in the `int64` range. -/
theorem parseInt_range {s : Str} {d : Int} (h : parseInt s = some d) :
    -2 ^ 63 ≤ d ∧ d ≤ 2 ^ 63 - 1 := by
  rcases s with _ | ⟨c, rest⟩
  · simp [parseInt] at h
  · dsimp only [parseInt] at h
    split_ifs at h <;> simp_all <;> omega

/-- Map read after overwrite at the written key. -/
theorem mapGet_mapPut_self (m : List (Str × Value)) (k : Str) (v : Value) :
    mapGet (mapPut m k v) k = some v := by
  induction m with
  | nil => simp [mapPut, mapGet]
  | cons p rest ih =>
    obtain ⟨k', v'⟩ := p
    by_cases h : k' = k
    · simp [mapPut, mapGet, h]
    · simp [mapPut, mapGet, h, ih]

/-- Map read after overwrite at a different key. -/
theorem mapGet_mapPut_other (m : List (Str × Value)) (k k0 : Str) (v : Value)
    (hne : k ≠ k0) : mapGet (mapPut m k v) k0 = mapGet m k0 := by
  induction m with
  | nil => simp [mapPut, mapGet, hne]
  | cons p rest ih =>
    obtain ⟨k', v'⟩ := p
    by_cases h : k' = k
    · subst h
      simp [mapPut, mapGet, hne]
    · simp [mapPut, mapGet, h, ih]

/-! ## Claims C1, C2, C7, C8 -/

/-- C1: the `LPush` loop iterates from the last argument down while
prepending, which stores the arguments in their original order; the spec
(and `LPush`'s own documentation, which promises the last argument first)
expects Redis order.  Evaluated at the spec's concrete scenario: on an
empty store `LPUSH q "1" "2" "3"` replies Int(3), but the subsequent
`LPOP q` yields Str("1"), not Str("3"); `LLEN q` afterwards is Int(2). -/
theorem c1_lpush_lpop_divergence :
    (executeCommand ⟨[]⟩ { ty := CmdLPush, key := [113], args := [[49], [50], [51]], ttl := 0 } 0).1
        = Resp.int 3 ∧
    (executeCommand
        (executeCommand ⟨[]⟩ { ty := CmdLPush, key := [113], args := [[49], [50], [51]], ttl := 0 } 0).2
        { ty := CmdLPop, key := [113], args := [], ttl := 0 } 0).1
        = Resp.str [49] ∧
    Resp.str [49] ≠ Resp.str [51] ∧
    (executeCommand
        (executeCommand
          (executeCommand ⟨[]⟩ { ty := CmdLPush, key := [113], args := [[49], [50], [51]], ttl := 0 } 0).2
          { ty := CmdLPop, key := [113], args := [], ttl := 0 } 0).2
        { ty := CmdLLen, key := [113], args := [], ttl := 0 } 0).1
        = Resp.int 2 := by
  decide

/-- C2 fails as stated: applying HSET to a key holding a List leaves the
store unchanged but replies OK — no type error response is produced. -/
theorem c2_counterexample :
    executeCommand
        (Cache.mk [([113], Value.mk (GoData.ofList [[97]]) none ValueType.TypeList)])
        { ty := CmdHSet, key := [113], args := [[102], [118]], ttl := 0 } 0
      = (Resp.ok,
         Cache.mk [([113], Value.mk (GoData.ofList [[97]]) none ValueType.TypeList)]) ∧
    Resp.ok ≠ Resp.err errNotString := by
  constructor
  · decide
  · decide

/-- C2 (amended): a type-mismatched operation on a live key leaves the
store unchanged, but the response is the operation's degenerate success
value (OK for hset, 0 for the push/set-membership counters), not a type
error; only the INCR family actually reports the mismatch, as
`Error("value is not a string")`. -/
theorem c2_type_mismatch_no_mutation (c : Cache) (k : Str) (v : Value) (now ttl : Int)
    (hget : mapGet c.data k = some v) (hlive : isExpired now v = false) :
    (v.vtype ≠ ValueType.TypeHash → ∀ f w, Cache.HSet c k f w now = c) ∧
    (v.vtype ≠ ValueType.TypeList → ∀ vs, Cache.LPush c k vs now = (0, c)) ∧
    (v.vtype ≠ ValueType.TypeList → ∀ vs, Cache.RPush c k vs now = (0, c)) ∧
    (v.vtype ≠ ValueType.TypeSet → ∀ ms, Cache.SAdd c k ms now = (0, c)) ∧
    (v.vtype ≠ ValueType.TypeSet → ∀ ms, Cache.SRem c k ms now = (0, c)) ∧
    (v.vtype ≠ ValueType.TypeString → ∀ d,
       Cache.IncrBy c k d now = (Except.error errNotString, c)) ∧
    (v.vtype ≠ ValueType.TypeHash → ∀ f w rest,
       executeCommand c { ty := CmdHSet, key := k, args := f :: w :: rest, ttl := ttl } now
         = (Resp.ok, c)) ∧
    (v.vtype ≠ ValueType.TypeList → ∀ v1 vs,
       executeCommand c { ty := CmdLPush, key := k, args := v1 :: vs, ttl := ttl } now
         = (Resp.int 0, c)) := by
  refine ⟨?_, ?_, ?_, ?_, ?_, ?_, ?_, ?_⟩
  · intro hty f w
    simp [Cache.HSet, hget, hlive, hty]
  · intro hty vs
    simp [Cache.LPush, hget, hlive, hty]
  · intro hty vs
    simp [Cache.RPush, hget, hlive, hty]
  · intro hty ms
    simp [Cache.SAdd, hget, hlive, hty]
  · intro hty ms
    simp [Cache.SRem, hget, hlive, hty]
  · intro hty d
    simp [Cache.IncrBy, hget, hlive, hty]
  · intro hty f w rest
    simp [executeCommand, CmdGet, CmdSet, CmdDel, CmdExists, CmdIncr, CmdDecr,
      CmdIncrBy, CmdDecrBy, CmdExpire, CmdTTL, CmdPersist, CmdHGet, CmdHSet,
      handleHSet, Cache.HSet, hget, hlive, hty]
  · intro hty v1 vs
    simp [executeCommand, CmdGet, CmdSet, CmdDel, CmdExists, CmdIncr, CmdDecr,
      CmdIncrBy, CmdDecrBy, CmdExpire, CmdTTL, CmdPersist, CmdHGet, CmdHSet,
      CmdHDel, CmdHGetAll, CmdHExists, CmdLPush, handleLPush, Cache.LPush,
      hget, hlive, hty]

/-- Witness for the amended C2 at a concrete store: a live List key `q`,
on which `hset` is a no-op. -/
theorem c2_type_mismatch_no_mutation_witness :
    mapGet [([113], Value.mk (GoData.ofList [[97]]) none ValueType.TypeList)] [113]
      = some (Value.mk (GoData.ofList [[97]]) none ValueType.TypeList) ∧
    isExpired 0 (Value.mk (GoData.ofList [[97]]) none ValueType.TypeList) = false ∧
    Cache.HSet (Cache.mk [([113], Value.mk (GoData.ofList [[97]]) none ValueType.TypeList)])
        [113] [102] [118] 0
      = Cache.mk [([113], Value.mk (GoData.ofList [[97]]) none ValueType.TypeList)] := by
  refine ⟨by decide, by decide, ?_⟩
  exact (c2_type_mismatch_no_mutation
    (Cache.mk [([113], Value.mk (GoData.ofList [[97]]) none ValueType.TypeList)]) [113]
    (Value.mk (GoData.ofList [[97]]) none ValueType.TypeList) 0 0
    (by decide) (by decide)).1 (by decide) [102] [118]

/-- C7 fails as stated for `expire`: after `expire(k, 0)` on a live key the
expiration is set to the current instant, so at any later time the key
reads as absent and `ttl` reports the -2s (absent) sentinel rather than
the -1s (no-expiration) sentinel.  Concretely: `set k v 0` at time 0,
`expire k 0` at time 5 succeeds, and at time 6 `get` misses and `ttl`
is -2s. -/
theorem c7_counterexample :
    (Cache.Expire (Cache.Set (Cache.mk []) [107] [118] 0 0) [107] 0 5).1 = true ∧
    (Cache.Get (Cache.Expire (Cache.Set (Cache.mk []) [107] [118] 0 0) [107] 0 5).2 [107] 6).2
      = false ∧
    Cache.TTL (Cache.Expire (Cache.Set (Cache.mk []) [107] [118] 0 0) [107] 0 5).2 [107] 6
      = -2 * nsPerSec ∧
    (-2 : Int) * nsPerSec ≠ -1 * nsPerSec := by
  refine ⟨by decide, by decide, by decide, by decide⟩

/-- C7 (amended): `set(k, v, 0)` (or never setting a TTL) really means no
expiration — the key stays readable at every instant and `ttl` reports the
-1s sentinel; but `expire(k, 0)` on a live key instead stamps the current
instant as the expiration, after which (strictly later) the key is
observationally absent and `ttl` reports -2s. -/
theorem c7_set_zero_no_expiration (c : Cache) (k val : Str) (now t : Int) (v : Value) :
    (Cache.Get (Cache.Set c k val 0 now) k t = (val, true) ∧
     Cache.TTL (Cache.Set c k val 0 now) k t = -1 * nsPerSec) ∧
    (mapGet c.data k = some v → isExpired now v = false →
      (Cache.Expire c k 0 now).1 = true ∧
      mapGet (Cache.Expire c k 0 now).2.data k = some { v with expiresAt := some now } ∧
      (now < t →
        (Cache.Get (Cache.Expire c k 0 now).2 k t).2 = false ∧
        Cache.TTL (Cache.Expire c k 0 now).2 k t = -2 * nsPerSec)) := by
  constructor
  · constructor
    · simp [Cache.Get, Cache.Set, mapGet_mapPut_self, isExpired]
    · simp [Cache.TTL, Cache.Set, mapGet_mapPut_self, isExpired]
  · intro hget hlive
    refine ⟨?_, ?_, ?_⟩
    · simp [Cache.Expire, hget, hlive]
    · simp [Cache.Expire, hget, hlive, mapGet_mapPut_self]
    · intro ht
      have hstep : Cache.Expire c k 0 now
          = (true, Cache.mk (mapPut c.data k { v with expiresAt := some now })) := by
        simp [Cache.Expire, hget, hlive]
      rw [hstep]
      constructor
      · simp [Cache.Get, mapGet_mapPut_self, isExpired, ht]
      · simp [Cache.TTL, mapGet_mapPut_self, isExpired, ht]

/-- Witness for the amended C7 at a concrete input: key `k` set without
TTL at time 0, expired-at-now via `expire k 0` at time 5. -/
theorem c7_set_zero_no_expiration_witness :
    (Cache.Get (Cache.Set (Cache.mk []) [107] [118] 0 0) [107] 9 = ([118], true) ∧
     Cache.TTL (Cache.Set (Cache.mk []) [107] [118] 0 0) [107] 9 = -1 * nsPerSec) ∧
    (mapGet (Cache.Set (Cache.mk []) [107] [118] 0 0).data [107]
        = some (Value.mk (GoData.ofString [118]) none ValueType.TypeString) →
     isExpired 5 (Value.mk (GoData.ofString [118]) none ValueType.TypeString) = false →
      (Cache.Expire (Cache.Set (Cache.mk []) [107] [118] 0 0) [107] 0 5).1 = true ∧
      mapGet (Cache.Expire (Cache.Set (Cache.mk []) [107] [118] 0 0) [107] 0 5).2.data [107]
        = some { Value.mk (GoData.ofString [118]) none ValueType.TypeString with
                 expiresAt := some 5 } ∧
      (5 < (9 : Int) →
        (Cache.Get (Cache.Expire (Cache.Set (Cache.mk []) [107] [118] 0 0) [107] 0 5).2 [107] 9).2
          = false ∧
        Cache.TTL (Cache.Expire (Cache.Set (Cache.mk []) [107] [118] 0 0) [107] 0 5).2 [107] 9
          = -2 * nsPerSec)) :=
  c7_set_zero_no_expiration (Cache.Set (Cache.mk []) [107] [118] 0 0) [107] [118] 5 9
    (Value.mk (GoData.ofString [118]) none ValueType.TypeString)

/-- C8 fails only at the boundary instant `now = expiresAt`: the key is
still live for reads (`After` is strict) yet `ttl` already reports -2s
although the remaining time is 0 and the expiration is not in the past.
Concretely: `set k v` with TTL 5 at time 0, observed at time 5. -/
theorem c8_counterexample :
    (Cache.Get (Cache.Set (Cache.mk []) [107] [118] 5 0) [107] 5).2 = true ∧
    Cache.TTL (Cache.Set (Cache.mk []) [107] [118] 5 0) [107] 5 = -2 * nsPerSec ∧
    (-2 : Int) * nsPerSec ≠ 0 := by
  refine ⟨by decide, by decide, by decide⟩

/-- C8 (amended): `ttl` returns the remaining time when the key is live
with an expiration strictly in the future; -1s when the key is live with
no expiration; and -2s when the key is absent, expired, or its expiration
is at or before `now` (so in particular the dispatched TTL command on an
expired key answers Int(-2)). -/
theorem c8_ttl_sentinels (c : Cache) (k : Str) (now : Int) :
    (mapGet c.data k = none → Cache.TTL c k now = -2 * nsPerSec) ∧
    (∀ v, mapGet c.data k = some v → isExpired now v = true →
      Cache.TTL c k now = -2 * nsPerSec ∧
      executeCommand c { ty := CmdTTL, key := k, args := [], ttl := 0 } now
        = (Resp.int (-2), c)) ∧
    (∀ v, mapGet c.data k = some v → isExpired now v = false → v.expiresAt = none →
      Cache.TTL c k now = -1 * nsPerSec) ∧
    (∀ v e, mapGet c.data k = some v → v.expiresAt = some e → now ≤ e →
      (0 < e - now → Cache.TTL c k now = e - now) ∧
      (e - now ≤ 0 → Cache.TTL c k now = -2 * nsPerSec)) := by
  refine ⟨?_, ?_, ?_, ?_⟩
  · intro hnone
    simp [Cache.TTL, hnone]
  · intro v hget hexp
    constructor
    · simp [Cache.TTL, hget, hexp]
    · simp [executeCommand, CmdGet, CmdSet, CmdDel, CmdExists, CmdIncr, CmdDecr,
        CmdIncrBy, CmdDecrBy, CmdExpire, CmdTTL, handleTTL, Cache.TTL, hget, hexp]
      decide
  · intro v hget hlive hnone
    simp [Cache.TTL, hget, hlive, hnone]
  · intro v e hget he hle
    have hlive : isExpired now v = false := by
      simp [isExpired, he]
      omega
    constructor
    · intro hpos
      simp [Cache.TTL, hget, hlive, he]
      omega
    · intro hz
      simp [Cache.TTL, hget, hlive, he]
      omega

/-- Witness for the amended C8 at a concrete input: a key with expiration
instant 5, observed at time 2. -/
theorem c8_ttl_sentinels_witness :
    (mapGet (Cache.Set (Cache.mk []) [107] [118] 5 0).data [107] = none →
      Cache.TTL (Cache.Set (Cache.mk []) [107] [118] 5 0) [107] 2 = -2 * nsPerSec) ∧
    (∀ v, mapGet (Cache.Set (Cache.mk []) [107] [118] 5 0).data [107] = some v →
      isExpired 2 v = true →
      Cache.TTL (Cache.Set (Cache.mk []) [107] [118] 5 0) [107] 2 = -2 * nsPerSec ∧
      executeCommand (Cache.Set (Cache.mk []) [107] [118] 5 0)
          { ty := CmdTTL, key := [107], args := [], ttl := 0 } 2
        = (Resp.int (-2), Cache.Set (Cache.mk []) [107] [118] 5 0)) ∧
    (∀ v, mapGet (Cache.Set (Cache.mk []) [107] [118] 5 0).data [107] = some v →
      isExpired 2 v = false → v.expiresAt = none →
      Cache.TTL (Cache.Set (Cache.mk []) [107] [118] 5 0) [107] 2 = -1 * nsPerSec) ∧
    (∀ v e, mapGet (Cache.Set (Cache.mk []) [107] [118] 5 0).data [107] = some v →
      v.expiresAt = some e → (2 : Int) ≤ e →
      (0 < e - 2 → Cache.TTL (Cache.Set (Cache.mk []) [107] [118] 5 0) [107] 2 = e - 2) ∧
      (e - 2 ≤ 0 → Cache.TTL (Cache.Set (Cache.mk []) [107] [118] 5 0) [107] 2
        = -2 * nsPerSec)) :=
  c8_ttl_sentinels (Cache.Set (Cache.mk []) [107] [118] 5 0) [107] 2

/-! ## Claims C6 and C9 -/

/-- C6 fails as stated at the `int64` minimum: `DECRBY k
"-9223372036854775808"` negates the parsed delta with wrapping, leaving
the delta at the minimum, while `INCRBY k "9223372036854775808"` (the
decimal text of the negation) fails to parse and silently falls back to
delta 1; on an empty store the replies are Int(-9223372036854775808) and
Int(1). -/
theorem c6_counterexample :
    (executeCommand (Cache.mk [])
        { ty := CmdDecrBy, key := [99], args := [strBytes "-9223372036854775808"], ttl := 0 }
        0).1 = Resp.int (-9223372036854775808) ∧
    (executeCommand (Cache.mk [])
        { ty := CmdIncrBy, key := [99], args := [strBytes "9223372036854775808"], ttl := 0 }
        0).1 = Resp.int 1 ∧
    Resp.int (-9223372036854775808) ≠ Resp.int 1 := by
  refine ⟨by decide, by decide, by decide⟩

/-- C6 (amended): dispatching `DECRBY k d` and `INCRBY k d'` (with `d'`
the decimal text of the negation of `d`) produce the same response and
post-state whenever `d` parses to an `int64` value other than the
minimum; an unparseable delta makes both DECRBY and INCRBY behave exactly
like INCR (delta silently 1); and `incr`/`decr` are definitionally
`incrBy(1)` / `incrBy(-1)`. -/
theorem c6_decrby_incrby_equiv (c : Cache) (k a : Str) (rest : List Str)
    (ttl now d : Int) (hparse : parseInt a = some d) (hmin : d ≠ -2 ^ 63) :
    (executeCommand c { ty := CmdDecrBy, key := k, args := a :: rest, ttl := ttl } now
      = executeCommand c
          { ty := CmdIncrBy, key := k, args := formatInt (-d) :: rest, ttl := ttl } now) ∧
    (∀ a2, parseInt a2 = none →
      executeCommand c { ty := CmdDecrBy, key := k, args := a2 :: rest, ttl := ttl } now
        = executeCommand c { ty := CmdIncr, key := k, args := a2 :: rest, ttl := ttl } now ∧
      executeCommand c { ty := CmdIncrBy, key := k, args := a2 :: rest, ttl := ttl } now
        = executeCommand c { ty := CmdIncr, key := k, args := a2 :: rest, ttl := ttl } now) ∧
    Cache.Incr c k now = Cache.IncrBy c k 1 now ∧
    Cache.Decr c k now = Cache.IncrBy c k (-1) now := by
  have hrange := parseInt_range hparse
  have h1 : parseInt (formatInt (-d)) = some (-d) :=
    parseInt_formatInt (by omega) (by omega)
  have hw : wrap64 (-d) = -d := wrap64_eq_self (by omega) (by omega)
  refine ⟨?_, ?_, rfl, rfl⟩
  · simp [executeCommand, CmdGet, CmdSet, CmdDel, CmdExists, CmdIncr, CmdDecr,
      CmdIncrBy, CmdDecrBy, handleDecrBy, handleIncrBy, hparse, h1, hw]
  · intro a2 hnone
    constructor
    · simp [executeCommand, CmdGet, CmdSet, CmdDel, CmdExists, CmdIncr, CmdDecr,
        CmdIncrBy, CmdDecrBy, handleDecrBy, handleIncr, hnone, Cache.Incr]
    · simp [executeCommand, CmdGet, CmdSet, CmdDel, CmdExists, CmdIncr, CmdDecr,
        CmdIncrBy, CmdDecrBy, handleIncrBy, handleIncr, hnone, Cache.Incr]

/-- Witness for the amended C6 at a concrete input: delta text `"5"` on an
empty store. -/
theorem c6_decrby_incrby_equiv_witness :
    parseInt [53] = some 5 ∧ (5 : Int) ≠ -2 ^ 63 ∧
    executeCommand (Cache.mk []) { ty := CmdDecrBy, key := [99], args := [[53]], ttl := 0 } 0
      = executeCommand (Cache.mk [])
          { ty := CmdIncrBy, key := [99], args := [formatInt (-5)], ttl := 0 } 0 := by
  refine ⟨by decide, by decide, ?_⟩
  exact (c6_decrby_incrby_equiv (Cache.mk []) [99] [53] [] 0 0 5
    (by decide) (by decide)).1

/-- C9: `incrBy(k, d)` on a store where `k` is absent or expired creates
`k` as a permanent String holding the decimal encoding of `d` (readable
back and parsing to `d`) and returns `d`; consequently three sequential
INCR on an empty store reply Int(1), Int(2), Int(3) and a subsequent DECR
replies Int(2). -/
theorem c9_incrby_creates (c : Cache) (k : Str) (d now : Int)
    (h1 : -2 ^ 63 ≤ d) (h2 : d ≤ 2 ^ 63 - 1)
    (habsent : mapGet c.data k = none ∨
      ∃ v, mapGet c.data k = some v ∧ isExpired now v = true) :
    Cache.IncrBy c k d now
      = (Except.ok d,
         Cache.mk (mapPut c.data k
           (Value.mk (GoData.ofString (formatInt d)) none ValueType.TypeString))) ∧
    parseInt (formatInt d) = some d ∧
    Cache.Get (Cache.IncrBy c k d now).2 k now = (formatInt d, true) ∧
    ((executeCommand (Cache.mk []) { ty := CmdIncr, key := [99], args := [], ttl := 0 } 0).1
        = Resp.int 1 ∧
     (executeCommand
        (executeCommand (Cache.mk []) { ty := CmdIncr, key := [99], args := [], ttl := 0 } 0).2
        { ty := CmdIncr, key := [99], args := [], ttl := 0 } 0).1 = Resp.int 2 ∧
     (executeCommand
        (executeCommand
          (executeCommand (Cache.mk []) { ty := CmdIncr, key := [99], args := [], ttl := 0 } 0).2
          { ty := CmdIncr, key := [99], args := [], ttl := 0 } 0).2
        { ty := CmdIncr, key := [99], args := [], ttl := 0 } 0).1 = Resp.int 3 ∧
     (executeCommand
        (executeCommand
          (executeCommand
            (executeCommand (Cache.mk []) { ty := CmdIncr, key := [99], args := [], ttl := 0 } 0).2
            { ty := CmdIncr, key := [99], args := [], ttl := 0 } 0).2
          { ty := CmdIncr, key := [99], args := [], ttl := 0 } 0).2
        { ty := CmdDecr, key := [99], args := [], ttl := 0 } 0).1 = Resp.int 2) := by
  have hcreate : Cache.IncrBy c k d now
      = (Except.ok d,
         Cache.mk (mapPut c.data k
           (Value.mk (GoData.ofString (formatInt d)) none ValueType.TypeString))) := by
    rcases habsent with hnone | ⟨v, hget, hexp⟩
    · simp [Cache.IncrBy, hnone]
    · simp [Cache.IncrBy, hget, hexp]
  refine ⟨hcreate, parseInt_formatInt h1 h2, ?_, by decide, by decide, by decide, by decide⟩
  rw [hcreate]
  simp [Cache.Get, mapGet_mapPut_self, isExpired]

/-- Witness for C9 at a concrete input: delta 5 on an empty store. -/
theorem c9_incrby_creates_witness :
    (-2 ^ 63 : Int) ≤ 5 ∧ (5 : Int) ≤ 2 ^ 63 - 1 ∧
    (mapGet (Cache.mk []).data [107] = none ∨
      ∃ v, mapGet (Cache.mk []).data [107] = some v ∧ isExpired 0 v = true) ∧
    Cache.IncrBy (Cache.mk []) [107] 5 0
      = (Except.ok 5,
         Cache.mk (mapPut (Cache.mk []).data [107]
           (Value.mk (GoData.ofString (formatInt 5)) none ValueType.TypeString))) := by
  refine ⟨by decide, by decide, Or.inl (by decide), ?_⟩
  exact (c9_incrby_creates (Cache.mk []) [107] 5 0 (by decide) (by decide)
    (Or.inl (by decide))).1

/-! ## Claim C10: the tag/shape invariant -/

/-- Entries after an overwrite are the new binding or old entries. -/
theorem mem_mapPut {m : List (Str × Value)} {k : Str} {v : Value} {p : Str × Value}
    (hp : p ∈ mapPut m k v) : p = (k, v) ∨ p ∈ m := by
  induction m with
  | nil => simp [mapPut] at hp; simp [hp]
  | cons q rest ih =>
    obtain ⟨k', v'⟩ := q
    by_cases h : k' = k
    · simp only [mapPut, if_pos h, List.mem_cons] at hp
      rcases hp with hp | hp
      · exact Or.inl hp
      · exact Or.inr (List.mem_cons_of_mem _ hp)
    · simp only [mapPut, if_neg h, List.mem_cons] at hp
      rcases hp with hp | hp
      · exact Or.inr (by simp [hp])
      · rcases ih hp with hp' | hp'
        · exact Or.inl hp'
        · exact Or.inr (List.mem_cons_of_mem _ hp')

/-- Entries after a deletion were already present. -/
theorem mem_mapDel {m : List (Str × Value)} {k : Str} {p : Str × Value}
    (hp : p ∈ mapDel m k) : p ∈ m := by
  induction m with
  | nil => simp [mapDel] at hp
  | cons q rest ih =>
    obtain ⟨k', v'⟩ := q
    by_cases h : k' = k
    · simp only [mapDel, if_pos h] at hp
      exact List.mem_cons_of_mem _ (ih hp)
    · simp only [mapDel, if_neg h, List.mem_cons] at hp
      rcases hp with hp | hp
      · simp [hp]
      · exact List.mem_cons_of_mem _ (ih hp)

/-- Tag/shape agreement is preserved by an overwrite with an agreeing
value. -/
theorem typeOK_mapPut {c : Cache} (h : TypeOK c) {k : Str} {v : Value}
    (hv : typeMatches v.vtype v.data = true) : TypeOK (Cache.mk (mapPut c.data k v)) := by
  intro p hp
  rcases mem_mapPut hp with hp' | hp'
  · rw [hp']
    exact hv
  · exact h p hp'

/-- A successful lookup is a member of the table. -/
theorem mapGet_mem {m : List (Str × Value)} {k : Str} {v : Value}
    (h : mapGet m k = some v) : (k, v) ∈ m := by
  induction m with
  | nil => simp [mapGet] at h
  | cons q rest ih =>
    obtain ⟨k', v'⟩ := q
    by_cases hk : k' = k
    · subst hk
      simp [mapGet] at h
      simp [h]
    · simp only [mapGet, if_neg hk] at h
      exact List.mem_cons_of_mem _ (ih h)

/-- Every store operation preserves the tag/shape agreement. -/
theorem typeOK_applyOp (c : Cache) (h : TypeOK c) (op : CacheOp) :
    TypeOK (applyOp c op) := by
  cases op with
  | set k v ttl now => exact typeOK_mapPut h rfl
  | del k =>
    dsimp only [applyOp, Cache.Del]
    split
    · exact fun p hp => h p (mem_mapDel hp)
    · exact h
  | incrBy k d now =>
    dsimp only [applyOp, Cache.IncrBy]
    cases hget : mapGet c.data k with
    | none => exact typeOK_mapPut h rfl
    | some value =>
      dsimp only
      by_cases hexp : isExpired now value
      · rw [if_pos hexp]
        exact typeOK_mapPut h rfl
      · rw [if_neg hexp]
        by_cases hty : value.vtype ≠ ValueType.TypeString
        · rw [if_pos hty]
          exact h
        · rw [if_neg hty]
          push_neg at hty
          cases hdata : value.data with
          | ofString s =>
            dsimp only
            cases hp : parseInt s with
            | none => exact h
            | some cur => exact typeOK_mapPut h (by simp [typeMatches, hty])
          | ofHash hm => exact h
          | ofList l => exact h
          | ofSet s => exact h
  | expire k ttl now =>
    dsimp only [applyOp, Cache.Expire]
    cases hget : mapGet c.data k with
    | none => exact h
    | some value =>
      dsimp only
      by_cases hexp : isExpired now value
      · rw [if_pos hexp]
        exact h
      · rw [if_neg hexp]
        exact typeOK_mapPut h (h (k, value) (mapGet_mem hget))
  | persist k now =>
    dsimp only [applyOp, Cache.Persist]
    cases hget : mapGet c.data k with
    | none => exact h
    | some value =>
      dsimp only
      by_cases hexp : isExpired now value
      · rw [if_pos hexp]
        exact h
      · rw [if_neg hexp]
        exact typeOK_mapPut h (h (k, value) (mapGet_mem hget))
  | hset k f v now =>
    dsimp only [applyOp, Cache.HSet]
    cases hget : mapGet c.data k with
    | none => exact typeOK_mapPut h rfl
    | some value =>
      dsimp only
      by_cases hexp : isExpired now value
      · rw [if_pos hexp]
        exact typeOK_mapPut h rfl
      · rw [if_neg hexp]
        by_cases hty : value.vtype ≠ ValueType.TypeHash
        · rw [if_pos hty]
          exact h
        · rw [if_neg hty]
          push_neg at hty
          cases hdata : value.data with
          | ofString s => exact h
          | ofHash hm => exact typeOK_mapPut h (by simp [typeMatches, hty])
          | ofList l => exact h
          | ofSet s => exact h
  | hdel k f now =>
    dsimp only [applyOp, Cache.HDel]
    cases hget : mapGet c.data k with
    | none => exact h
    | some value =>
      dsimp only
      by_cases hexp : isExpired now value
      · rw [if_pos hexp]
        exact h
      · rw [if_neg hexp]
        by_cases hty : value.vtype ≠ ValueType.TypeHash
        · rw [if_pos hty]
          exact h
        · rw [if_neg hty]
          push_neg at hty
          cases hdata : value.data with
          | ofString s => exact h
          | ofHash hm =>
            dsimp only
            cases hfind : hmGet hm f with
            | none => exact h
            | some w => exact typeOK_mapPut h (by simp [typeMatches, hty])
          | ofList l => exact h
          | ofSet s => exact h
  | lpush k vs now =>
    dsimp only [applyOp, Cache.LPush]
    cases hget : mapGet c.data k with
    | none => exact typeOK_mapPut h rfl
    | some value =>
      dsimp only
      by_cases hexp : isExpired now value
      · rw [if_pos hexp]
        exact typeOK_mapPut h rfl
      · rw [if_neg hexp]
        by_cases hty : value.vtype ≠ ValueType.TypeList
        · rw [if_pos hty]
          exact h
        · rw [if_neg hty]
          push_neg at hty
          cases hdata : value.data with
          | ofString s => exact h
          | ofHash hm => exact h
          | ofList l => exact typeOK_mapPut h (by simp [typeMatches, hty])
          | ofSet s => exact h
  | rpush k vs now =>
    dsimp only [applyOp, Cache.RPush]
    cases hget : mapGet c.data k with
    | none => exact typeOK_mapPut h rfl
    | some value =>
      dsimp only
      by_cases hexp : isExpired now value
      · rw [if_pos hexp]
        exact typeOK_mapPut h rfl
      · rw [if_neg hexp]
        by_cases hty : value.vtype ≠ ValueType.TypeList
        · rw [if_pos hty]
          exact h
        · rw [if_neg hty]
          push_neg at hty
          cases hdata : value.data with
          | ofString s => exact h
          | ofHash hm => exact h
          | ofList l => exact typeOK_mapPut h (by simp [typeMatches, hty])
          | ofSet s => exact h
  | lpop k now =>
    dsimp only [applyOp, Cache.LPop]
    cases hget : mapGet c.data k with
    | none => exact h
    | some value =>
      dsimp only
      by_cases hexp : isExpired now value
      · rw [if_pos hexp]
        exact h
      · rw [if_neg hexp]
        by_cases hty : value.vtype ≠ ValueType.TypeList
        · rw [if_pos hty]
          exact h
        · rw [if_neg hty]
          push_neg at hty
          cases hdata : value.data with
          | ofString s => exact h
          | ofHash hm => exact h
          | ofList l =>
            dsimp only
            cases l with
            | nil => exact h
            | cons x rest => exact typeOK_mapPut h (by simp [typeMatches, hty])
          | ofSet s => exact h
  | rpop k now =>
    dsimp only [applyOp, Cache.RPop]
    cases hget : mapGet c.data k with
    | none => exact h
    | some value =>
      dsimp only
      by_cases hexp : isExpired now value
      · rw [if_pos hexp]
        exact h
      · rw [if_neg hexp]
        by_cases hty : value.vtype ≠ ValueType.TypeList
        · rw [if_pos hty]
          exact h
        · rw [if_neg hty]
          push_neg at hty
          cases hdata : value.data with
          | ofString s => exact h
          | ofHash hm => exact h
          | ofList l =>
            dsimp only
            cases hlast : l.getLast? with
            | none => exact h
            | some x => exact typeOK_mapPut h (by simp [typeMatches, hty])
          | ofSet s => exact h
  | sadd k ms now =>
    dsimp only [applyOp, Cache.SAdd]
    cases hget : mapGet c.data k with
    | none => exact typeOK_mapPut h rfl
    | some value =>
      dsimp only
      by_cases hexp : isExpired now value
      · rw [if_pos hexp]
        exact typeOK_mapPut h rfl
      · rw [if_neg hexp]
        by_cases hty : value.vtype ≠ ValueType.TypeSet
        · rw [if_pos hty]
          exact h
        · rw [if_neg hty]
          push_neg at hty
          cases hdata : value.data with
          | ofString s => exact h
          | ofHash hm => exact h
          | ofList l => exact h
          | ofSet s => exact typeOK_mapPut h (by simp [typeMatches, hty])
  | srem k ms now =>
    dsimp only [applyOp, Cache.SRem]
    cases hget : mapGet c.data k with
    | none => exact h
    | some value =>
      dsimp only
      by_cases hexp : isExpired now value
      · rw [if_pos hexp]
        exact h
      · rw [if_neg hexp]
        by_cases hty : value.vtype ≠ ValueType.TypeSet
        · rw [if_pos hty]
          exact h
        · rw [if_neg hty]
          push_neg at hty
          cases hdata : value.data with
          | ofString s => exact h
          | ofHash hm => exact h
          | ofList l => exact h
          | ofSet s => exact typeOK_mapPut h (by simp [typeMatches, hty])
  | cleanup now =>
    exact fun p hp => h p (List.mem_of_mem_filter hp)

/-- Tag/shape agreement holds along any run. -/
theorem typeOK_runOps : ∀ (ops : List CacheOp) (c : Cache), TypeOK c →
    TypeOK (runOps c ops) := by
  intro ops
  induction ops with
  | nil => intro c h; exact h
  | cons op rest ih =>
    intro c h
    exact ih _ (typeOK_applyOp c h op)

/-- C10: every cache state reachable from the empty cache by any sequence
of operations keeps each stored `Value`'s type tag in agreement with the
dynamic shape of its data (strings under `TypeString`, field maps under
`TypeHash`, element lists under `TypeList`, member sets under `TypeSet`);
the Go type-assertion failure branches test exactly this agreement, hence
are unreachable. -/
theorem c10_type_invariant (ops : List CacheOp) : TypeOK (runOps (Cache.mk []) ops) := by
  apply typeOK_runOps
  intro p hp
  simp at hp

/-! ## Claim C3: codec round-trips -/

/-- Disjoint bit-or is addition: bits of `x` live below position `s`. -/
theorem lor_shiftLeft_eq_add {x d s : Nat} (hx : x < 2 ^ s) :
    x ||| d <<< s = x + d * 2 ^ s := by
  apply Nat.eq_of_testBit_eq
  intro j
  rw [Nat.testBit_lor, Nat.testBit_shiftLeft,
    show x + d * 2 ^ s = 2 ^ s * d + x by ring,
    Nat.testBit_mul_pow_two_add d hx j]
  by_cases hj : j < s
  · have hns : ¬s ≤ j := by omega
    simp [hj, hns]
  · have hs : s ≤ j := by omega
    have hxj : x.testBit j = false :=
      Nat.testBit_lt_two_pow (lt_of_lt_of_le hx (Nat.pow_le_pow_right (by norm_num) hs))
    simp [hj, hs, hxj]

/-- Core varint round-trip, generalized over the decoder state: with `i`
bytes consumed, accumulator `x` below `2^(7i)` and a value `n` fitting the
remaining bit budget, decoding the encoding of `n` (with enough fuel to
finish within 10 bytes) yields `x + n·2^(7i)`. -/
theorem uvarintDecAux_encAux : ∀ f i x n rest, 1 ≤ f → i + f = 10 →
    x < 2 ^ (7 * i) → n < 2 ^ (64 - 7 * i) →
    uvarintDecAux (uvarintEncAux f n ++ rest) x (7 * i) i
      = some (x + n * 2 ^ (7 * i), i + (uvarintEncAux f n).length) := by
  intro f
  induction f with
  | zero => intro i x n rest hf hif hx hn; omega
  | succ f ih =>
    intro i x n rest hf hif hx hn
    have hi : i ≤ 9 := by omega
    by_cases hsmall : n < 128
    · simp only [uvarintEncAux, if_pos hsmall, List.cons_append]
      simp only [uvarintDecAux]
      rw [if_neg (by omega)]
      have hb : n % 256 = n := Nat.mod_eq_of_lt (by omega)
      rw [hb, if_pos hsmall]
      have hguard : ¬(i = 9 ∧ 1 < n) := by
        rintro ⟨h9, hgt⟩
        subst h9
        have hn2 := hn
        norm_num at hn2
        omega
      rw [if_neg hguard]
      have hshift : n <<< (7 * i) < 2 ^ 64 := by
        rw [Nat.shiftLeft_eq]
        calc n * 2 ^ (7 * i) < 2 ^ (64 - 7 * i) * 2 ^ (7 * i) :=
              (Nat.mul_lt_mul_right (by positivity)).mpr hn
        _ = 2 ^ 64 := by
              rw [← pow_add]
              congr 1
              omega
      rw [Nat.mod_eq_of_lt hshift, lor_shiftLeft_eq_add hx]
      simp
    · have hge : 128 ≤ n := by omega
      have hbudget : 8 ≤ 64 - 7 * i := by
        by_contra hcon
        have : 2 ^ (64 - 7 * i) ≤ 2 ^ 7 := Nat.pow_le_pow_right (by norm_num) (by omega)
        omega
      have hf1 : 1 ≤ f := by
        rcases Nat.eq_zero_or_pos f with h0 | h1
        · subst h0
          omega
        · exact h1
      simp only [uvarintEncAux, if_neg (by omega : ¬n < 128), List.cons_append]
      simp only [uvarintDecAux]
      rw [if_neg (by omega)]
      have hb : (n % 128 + 128) % 256 = n % 128 + 128 :=
        Nat.mod_eq_of_lt (by omega)
      rw [hb, if_neg (by omega)]
      have hb2 : (n % 128 + 128) % 128 = n % 128 := by omega
      rw [hb2]
      have hsh : (n % 128) <<< (7 * i) < 2 ^ 64 := by
        rw [Nat.shiftLeft_eq]
        calc (n % 128) * 2 ^ (7 * i) < 128 * 2 ^ (7 * i) :=
              (Nat.mul_lt_mul_right (by positivity)).mpr (Nat.mod_lt _ (by norm_num))
        _ = 2 ^ (7 + 7 * i) := by rw [pow_add]; norm_num
        _ ≤ 2 ^ 64 := Nat.pow_le_pow_right (by norm_num) (by omega)
      rw [Nat.mod_eq_of_lt hsh, lor_shiftLeft_eq_add hx]
      have hxbound : x + n % 128 * 2 ^ (7 * i) < 2 ^ (7 * (i + 1)) := by
        have h1 : n % 128 * 2 ^ (7 * i) ≤ 127 * 2 ^ (7 * i) :=
          Nat.mul_le_mul_right _ (by omega)
        have h2 : 128 * 2 ^ (7 * i) = 2 ^ (7 * (i + 1)) := by
          rw [show (128 : Nat) = 2 ^ 7 by norm_num, ← pow_add]
          congr 1
          ring
        omega
      have hnbound : n / 128 < 2 ^ (64 - 7 * (i + 1)) := by
        rw [show 64 - 7 * (i + 1) = 64 - 7 * i - 7 from by omega,
          Nat.div_lt_iff_lt_mul (by norm_num : (0 : Nat) < 128)]
        calc n < 2 ^ (64 - 7 * i) := hn
        _ = 2 ^ (64 - 7 * i - 7) * 128 := by
              rw [show (128 : Nat) = 2 ^ 7 by norm_num, ← pow_add]
              congr 1
              omega
      have hrec := ih (i + 1) (x + n % 128 * 2 ^ (7 * i)) (n / 128) rest
        hf1 (by omega) hxbound hnbound
      rw [show 7 * i + 7 = 7 * (i + 1) from by ring, hrec]
      have hval : x + n % 128 * 2 ^ (7 * i) + n / 128 * 2 ^ (7 * (i + 1))
          = x + n * 2 ^ (7 * i) := by
        have hsplit : 2 ^ (7 * (i + 1)) = 2 ^ (7 * i) * 128 := by
          rw [show 7 * (i + 1) = 7 * i + 7 from by ring, pow_add]
          norm_num
        rw [hsplit]
        have hdm : n % 128 + n / 128 * 128 = n := by omega
        calc x + n % 128 * 2 ^ (7 * i) + n / 128 * (2 ^ (7 * i) * 128)
            = x + (n % 128 + n / 128 * 128) * 2 ^ (7 * i) := by ring
        _ = x + n * 2 ^ (7 * i) := by rw [hdm]
      simp only [Option.some.injEq, Prod.mk.injEq, List.length_cons]
      exact ⟨hval, by omega⟩

/-- Round-trip of the unsigned varint on the `uint64` range, with
arbitrary trailing bytes and exact consumed count. -/
theorem uvarintDec_enc (n : Nat) (rest : List Nat) (hn : n < 2 ^ 64) :
    uvarintDec (uvarintEnc n ++ rest) = some (n, (uvarintEnc n).length) := by
  have h := uvarintDecAux_encAux 10 0 0 n rest (by omega) (by omega) (by norm_num)
    (by simpa using hn)
  simpa [uvarintDec, uvarintEnc] using h

/-- Decoding a length-prefixed string after an arbitrary prefix. -/
theorem deserializeString_enc (pre s tail : List Nat) (hs : s.length < 2 ^ 64) :
    deserializeString (pre ++ (uvarintEnc s.length ++ (s ++ tail))) pre.length
      = some (s, pre.length + (uvarintEnc s.length).length + s.length) := by
  unfold deserializeString
  rw [List.drop_left, uvarintDec_enc _ _ hs]
  dsimp only
  have hlen : (pre ++ (uvarintEnc s.length ++ (s ++ tail))).length
      = pre.length + (uvarintEnc s.length).length + s.length + tail.length := by
    simp [List.length_append]
    omega
  rw [if_neg (by omega)]
  rw [if_neg (by omega)]
  have hregroup : pre ++ (uvarintEnc s.length ++ (s ++ tail))
      = (pre ++ uvarintEnc s.length) ++ (s ++ tail) := by
    simp [List.append_assoc]
  rw [hregroup]
  have hdrop : ((pre ++ uvarintEnc s.length) ++ (s ++ tail)).drop
      (pre.length + (uvarintEnc s.length).length)
      = s ++ tail := by
    have : (pre ++ uvarintEnc s.length).length
        = pre.length + (uvarintEnc s.length).length := by simp
    rw [← this, List.drop_left]
  rw [hdrop, List.take_left]

/-- The same decode step phrased for a single leading tag byte. -/
theorem deserializeString_enc1 (b : Nat) (s tail : List Nat) (hs : s.length < 2 ^ 64) :
    deserializeString (b :: (uvarintEnc s.length ++ (s ++ tail))) 1
      = some (s, 1 + (uvarintEnc s.length).length + s.length) :=
  deserializeString_enc [b] s tail hs

/-- Decoding a run of length-prefixed strings after an arbitrary prefix. -/
theorem deserializeStringsLoop_enc : ∀ (args : List Str) (pre tail : List Nat),
    (∀ a ∈ args, a.length < 2 ^ 64) →
    deserializeStringsLoop
        (pre ++ (args.flatMap (fun a => uvarintEnc a.length ++ a) ++ tail))
        args.length pre.length
      = some (args,
          pre.length + (args.flatMap (fun a => uvarintEnc a.length ++ a)).length) := by
  intro args
  induction args with
  | nil =>
    intro pre tail hlen
    simp [deserializeStringsLoop]
  | cons a as ih =>
    intro pre tail hlen
    have hregroup : pre ++ ((a :: as).flatMap (fun a => uvarintEnc a.length ++ a) ++ tail)
        = pre ++ (uvarintEnc a.length
            ++ (a ++ (as.flatMap (fun a => uvarintEnc a.length ++ a) ++ tail))) := by
      simp [List.flatMap_cons, List.append_assoc]
    simp only [List.length_cons, deserializeStringsLoop, hregroup]
    rw [deserializeString_enc pre a _ (hlen a (List.mem_cons_self a as))]
    dsimp only
    have hregroup2 : pre ++ (uvarintEnc a.length
          ++ (a ++ (as.flatMap (fun x => uvarintEnc x.length ++ x) ++ tail)))
        = ((pre ++ uvarintEnc a.length) ++ a)
            ++ (as.flatMap (fun x => uvarintEnc x.length ++ x) ++ tail) := by
      simp [List.append_assoc]
    have hplen : ((pre ++ uvarintEnc a.length) ++ a).length
        = pre.length + (uvarintEnc a.length).length + a.length := by
      simp
      omega
    rw [hregroup2, show pre.length + (uvarintEnc a.length).length + a.length
        = ((pre ++ uvarintEnc a.length) ++ a).length from hplen.symm]
    rw [ih _ _ (fun x hx => hlen x (List.mem_cons_of_mem a hx))]
    simp [List.flatMap_cons, List.length_append]
    omega

/-- The zigzag transform of `AppendVarint`/`Varint` is involutive. -/
theorem zigzagDec_zigzagEnc (v : Int) : zigzagDec (zigzagEnc v) = v := by
  unfold zigzagEnc zigzagDec
  split_ifs <;> omega

/-- Bound on the zigzag image inside `uint64` for `int64` inputs. -/
theorem zigzagEnc_lt (v : Int) (h1 : -2 ^ 63 ≤ v) (h2 : v ≤ 2 ^ 63 - 1) :
    zigzagEnc v < 2 ^ 64 := by
  unfold zigzagEnc
  split_ifs <;> omega

/-- C3: the codec round-trips — for every well-formed `Command`,
`DeserializeCommand (Serialize c)` succeeds and returns `c`; for every
well-formed `Response`, `DeserializeResponse (Serialize r)` succeeds and
returns `r`. -/
theorem c3_codec_roundtrip :
    (∀ cmd : Command, WFCommand cmd →
      deserializeCommand (serializeCommand cmd) = some cmd) ∧
    (∀ r : Resp, WFResp r → deserializeResponse (serializeResponse r) = some r) := by
  constructor
  · rintro ⟨ty, key, args, ttl⟩ ⟨hty, hkey, hargsn, hargs, s, httl, hs53⟩
    dsimp only at hty hkey hargsn hargs httl
    have hssmall : (s : Int) < 2 ^ 53 := by
      have hpos : (0 : Int) < nsPerSec := by norm_num [nsPerSec]
      nlinarith [hs53, Int.natCast_nonneg s]
    have hsecs : (Int.tdiv ttl nsPerSec).toNat = s := by
      rw [httl, Int.mul_tdiv_cancel _ (by norm_num [nsPerSec])]
      simp
    have hform : serializeCommand ⟨ty, key, args, ttl⟩
        = (ty % 256) :: (uvarintEnc key.length ++ (key ++ (uvarintEnc args.length
            ++ (args.flatMap (fun a => uvarintEnc a.length ++ a) ++ uvarintEnc s)))) := by
      simp only [serializeCommand, hsecs, List.append_assoc, List.cons_append,
        List.nil_append]
    rw [hform]
    dsimp only [deserializeCommand]
    rw [show ((ty % 256) :: (uvarintEnc key.length ++ (key ++ (uvarintEnc args.length
            ++ (args.flatMap (fun a => uvarintEnc a.length ++ a) ++ uvarintEnc s)))))
        = [ty % 256] ++ (uvarintEnc key.length ++ (key ++ (uvarintEnc args.length
            ++ (args.flatMap (fun a => uvarintEnc a.length ++ a) ++ uvarintEnc s))))
        from rfl]
    rw [show (1 : Nat) = [ty % 256].length from rfl]
    rw [deserializeString_enc [ty % 256] key _ hkey]
    dsimp only
    dsimp only [deserializeStringSlice]
    have hregroup : [ty % 256] ++ (uvarintEnc key.length ++ (key ++ (uvarintEnc args.length
            ++ (args.flatMap (fun a => uvarintEnc a.length ++ a) ++ uvarintEnc s))))
        = (([ty % 256] ++ uvarintEnc key.length) ++ key) ++ (uvarintEnc args.length
            ++ (args.flatMap (fun a => uvarintEnc a.length ++ a) ++ uvarintEnc s)) := by
      simp [List.append_assoc]
    have hoff1 : [ty % 256].length + (uvarintEnc key.length).length + key.length
        = (([ty % 256] ++ uvarintEnc key.length) ++ key).length := by
      simp
      omega
    rw [hregroup, hoff1, List.drop_left, uvarintDec_enc _ _ hargsn]
    dsimp only
    have hregroup2 : (([ty % 256] ++ uvarintEnc key.length) ++ key) ++ (uvarintEnc args.length
            ++ (args.flatMap (fun a => uvarintEnc a.length ++ a) ++ uvarintEnc s))
        = ((([ty % 256] ++ uvarintEnc key.length) ++ key) ++ uvarintEnc args.length)
            ++ (args.flatMap (fun a => uvarintEnc a.length ++ a) ++ uvarintEnc s) := by
      simp [List.append_assoc]
    have hoff2 : (([ty % 256] ++ uvarintEnc key.length) ++ key).length
          + (uvarintEnc args.length).length
        = ((([ty % 256] ++ uvarintEnc key.length) ++ key) ++ uvarintEnc args.length).length := by
      simp
      omega
    rw [hregroup2, hoff2, deserializeStringsLoop_enc args _ _ hargs]
    dsimp only
    unfold deserializeTTL
    have hregroup3 : ((([ty % 256] ++ uvarintEnc key.length) ++ key) ++ uvarintEnc args.length)
            ++ (args.flatMap (fun a => uvarintEnc a.length ++ a) ++ uvarintEnc s)
        = (((([ty % 256] ++ uvarintEnc key.length) ++ key) ++ uvarintEnc args.length)
            ++ args.flatMap (fun a => uvarintEnc a.length ++ a)) ++ (uvarintEnc s ++ []) := by
      simp [List.append_assoc]
    have hoff3 : ((([ty % 256] ++ uvarintEnc key.length) ++ key) ++ uvarintEnc args.length).length
          + (args.flatMap (fun a => uvarintEnc a.length ++ a)).length
        = (((([ty % 256] ++ uvarintEnc key.length) ++ key) ++ uvarintEnc args.length)
            ++ args.flatMap (fun a => uvarintEnc a.length ++ a)).length := by
      simp
      omega
    rw [hregroup3, hoff3, List.drop_left, uvarintDec_enc _ _ (by omega)]
    dsimp only
    rw [if_neg (by omega)]
    have hwrap : wrap64 ((s : Int) * nsPerSec) = ttl := by
      rw [← httl]
      have h0 : (0 : Int) ≤ (s : Int) * nsPerSec :=
        mul_nonneg (Int.natCast_nonneg s) (by norm_num [nsPerSec])
      exact wrap64_eq_self (by rw [httl]; omega) (by rw [httl]; omega)
    rw [hwrap, Nat.mod_eq_of_lt hty]
  · intro r hr
    cases r with
    | ok => decide
    | nil => decide
    | err msg =>
      have hlen : msg.length < 2 ^ 64 := hr
      dsimp only [serializeResponse, deserializeResponse]
      rw [if_neg (by omega), if_neg (by omega), if_pos rfl]
      have hnil : uvarintEnc msg.length ++ msg
          = uvarintEnc msg.length ++ (msg ++ []) := by simp
      rw [hnil, deserializeString_enc1 1 msg [] hlen]
    | str sdata =>
      have hlen : sdata.length < 2 ^ 64 := hr
      dsimp only [serializeResponse, deserializeResponse]
      rw [if_neg (by omega), if_neg (by omega), if_neg (by omega), if_pos rfl]
      have hnil : uvarintEnc sdata.length ++ sdata
          = uvarintEnc sdata.length ++ (sdata ++ []) := by simp
      rw [hnil, deserializeString_enc1 2 sdata [] hlen]
    | int v =>
      obtain ⟨hv1, hv2⟩ := hr
      dsimp only [serializeResponse, deserializeResponse, varintEnc, varintDec]
      rw [if_neg (by omega), if_neg (by omega), if_neg (by omega), if_neg (by omega),
        if_pos rfl]
      have hdrop : ((3 : Nat) :: uvarintEnc (zigzagEnc v)).drop 1
          = uvarintEnc (zigzagEnc v) ++ [] := by simp
      rw [hdrop, uvarintDec_enc _ _ (zigzagEnc_lt v hv1 hv2)]
      simp [zigzagDec_zigzagEnc]
    | array items =>
      obtain ⟨hn, hitems⟩ := hr
      dsimp only [serializeResponse, deserializeResponse]
      rw [if_neg (by omega), if_neg (by omega), if_neg (by omega), if_neg (by omega),
        if_neg (by omega), if_pos rfl]
      dsimp only [deserializeStringSlice]
      have hdrop : ((4 : Nat) :: (uvarintEnc items.length
            ++ items.flatMap (fun a => uvarintEnc a.length ++ a))).drop 1
          = uvarintEnc items.length
            ++ (items.flatMap (fun a => uvarintEnc a.length ++ a) ++ []) := by simp
      rw [hdrop, uvarintDec_enc _ _ hn]
      dsimp only
      have hregroup : ((4 : Nat) :: (uvarintEnc items.length
            ++ items.flatMap (fun a => uvarintEnc a.length ++ a)))
          = ([4] ++ uvarintEnc items.length)
            ++ (items.flatMap (fun a => uvarintEnc a.length ++ a) ++ []) := by
        simp
      have hoffA : 1 + (uvarintEnc items.length).length
          = ([4] ++ uvarintEnc items.length).length := by
        simp
        omega
      rw [hregroup, hoffA, deserializeStringsLoop_enc items _ _ hitems]

/-- Witness for C3 at concrete inputs: a SET command with a 60-second TTL
and an Int(-5) response. -/
theorem c3_codec_roundtrip_witness :
    WFCommand { ty := 1, key := [107], args := [[118]], ttl := 60 * nsPerSec } ∧
    deserializeCommand (serializeCommand
        { ty := 1, key := [107], args := [[118]], ttl := 60 * nsPerSec })
      = some { ty := 1, key := [107], args := [[118]], ttl := 60 * nsPerSec } ∧
    WFResp (Resp.int (-5)) ∧
    deserializeResponse (serializeResponse (Resp.int (-5))) = some (Resp.int (-5)) := by
  have hwf : WFCommand { ty := 1, key := [107], args := [[118]], ttl := 60 * nsPerSec } :=
    ⟨by decide, by decide, by decide, by decide, 60,
      by norm_num [nsPerSec], by norm_num [nsPerSec]⟩
  have hwfr : WFResp (Resp.int (-5)) := by
    constructor <;> decide
  exact ⟨hwf, c3_codec_roundtrip.1 _ hwf, hwfr, c3_codec_roundtrip.2 _ hwfr⟩

/-! ## Claims C4 and C5: the consistent hash ring -/

/-- Membership through sorted insertion. -/
theorem mem_insElem {x y : Nat} : ∀ {l : List Nat}, y ∈ insElem x l ↔ y = x ∨ y ∈ l := by
  intro l
  induction l with
  | nil => simp [insElem]
  | cons a as ih =>
    by_cases h : x ≤ a
    · simp [insElem, h]
    · simp only [insElem, if_neg h, List.mem_cons, ih]
      tauto

/-- Sorted insertion preserves sortedness. -/
theorem pairwise_insElem (x : Nat) : ∀ {l : List Nat},
    List.Pairwise (· ≤ ·) l → List.Pairwise (· ≤ ·) (insElem x l) := by
  intro l
  induction l with
  | nil => intro _; simp [insElem]
  | cons a as ih =>
    intro hp
    rcases List.pairwise_cons.mp hp with ⟨ha, has⟩
    by_cases h : x ≤ a
    · rw [insElem, if_pos h]
      refine List.pairwise_cons.mpr ⟨?_, hp⟩
      intro y hy
      rcases List.mem_cons.mp hy with hy | hy
      · omega
      · have := ha y hy
        omega
    · rw [insElem, if_neg h]
      refine List.pairwise_cons.mpr ⟨?_, ih has⟩
      intro y hy
      rcases mem_insElem.mp hy with hy | hy
      · omega
      · exact ha y hy

/-- Membership through insertion sort. -/
theorem mem_insSort {y : Nat} : ∀ {l : List Nat}, y ∈ insSort l ↔ y ∈ l := by
  intro l
  induction l with
  | nil => simp [insSort]
  | cons a as ih => simp [insSort, mem_insElem, ih]

/-- Insertion sort sorts. -/
theorem pairwise_insSort : ∀ (l : List Nat), List.Pairwise (· ≤ ·) (insSort l) := by
  intro l
  induction l with
  | nil => simp [insSort]
  | cons a as ih => exact pairwise_insElem a ih

/-- The element found first in a sorted list is the least element
satisfying the predicate. -/
theorem find?_sorted_min {p : Nat → Bool} :
    ∀ {l : List Nat}, List.Pairwise (· ≤ ·) l → ∀ {x : Nat}, l.find? p = some x →
      x ∈ l ∧ p x = true ∧ ∀ y ∈ l, p y = true → x ≤ y := by
  intro l
  induction l with
  | nil => intro _ x hx; simp [List.find?] at hx
  | cons a as ih =>
    intro hp x hx
    rcases List.pairwise_cons.mp hp with ⟨ha, has⟩
    by_cases hpa : p a
    · rw [List.find?_cons_of_pos _ hpa, Option.some.injEq] at hx
      subst hx
      refine ⟨List.mem_cons_self a as, hpa, ?_⟩
      intro y hy _
      rcases List.mem_cons.mp hy with hy | hy
      · omega
      · exact ha y hy
    · rw [List.find?_cons_of_neg _ (by simpa using hpa)] at hx
      obtain ⟨hmem, hpx, hmin⟩ := ih has hx
      refine ⟨List.mem_cons_of_mem a hmem, hpx, ?_⟩
      intro y hy hpy
      rcases List.mem_cons.mp hy with hy | hy
      · subst hy
        exact absurd hpy (by simpa using hpa)
      · exact hmin y hy hpy

/-- The head of a sorted non-empty list is its least element. -/
theorem head_sorted_min {l : List Nat} (hp : List.Pairwise (· ≤ ·) l) (hne : l ≠ []) :
    l.getD 0 0 ∈ l ∧ ∀ y ∈ l, l.getD 0 0 ≤ y := by
  cases l with
  | nil => exact absurd rfl hne
  | cons a as =>
    rcases List.pairwise_cons.mp hp with ⟨ha, _⟩
    simp only [List.getD_cons_zero]
    refine ⟨List.mem_cons_self a as, ?_⟩
    intro y hy
    rcases List.mem_cons.mp hy with hy | hy
    · omega
    · exact ha y hy

/-- The Go index computation (`sort.Search` then wrap, then array read)
selects exactly the value `selHash` describes, for any hash array. -/
theorem getD_searchIdx (h d : Nat) : ∀ (l : List Nat),
    l.getD (if l.findIdx (fun x => h ≤ x) = l.length then 0
            else l.findIdx (fun x => h ≤ x)) d
      = match l.find? (fun x => h ≤ x) with
        | some v => v
        | none => l.getD 0 d := by
  intro l
  induction l with
  | nil => simp [List.findIdx_nil, List.find?]
  | cons a as ih =>
    by_cases hpa : h ≤ a
    · have hd1 : List.findIdx (fun x => decide (h ≤ x)) (a :: as) = 0 := by
        rw [List.findIdx_cons, decide_eq_true hpa, cond_true]
      rw [hd1]
      simp only [List.find?]
      rw [decide_eq_true hpa]
      simp
    · have hd1 : List.findIdx (fun x => decide (h ≤ x)) (a :: as)
          = List.findIdx (fun x => decide (h ≤ x)) as + 1 := by
        rw [List.findIdx_cons]
        simp [hpa]
      have hdf : decide (h ≤ a) = false := by simpa using hpa
      rw [hd1]
      simp only [List.find?]
      rw [hdf]
      by_cases hend : List.findIdx (fun x => decide (h ≤ x)) as = as.length
      · have hnone : as.find? (fun x => h ≤ x) = none := by
          rw [List.find?_eq_none]
          intro y hy
          have := List.findIdx_eq_length.mp hend y hy
          simpa using this
        rw [hnone, hend, if_pos (by simp)]
      · cases hfind : as.find? (fun x => h ≤ x) with
        | none =>
          exfalso
          apply hend
          rw [List.findIdx_eq_length]
          intro y hy
          have := List.find?_eq_none.mp hfind y hy
          simpa using this
        | some v =>
          have hne2 : ¬(List.findIdx (fun x => decide (h ≤ x)) as + 1 = (a :: as).length) := by
            simp only [List.length_cons]
            omega
          rw [if_neg hne2, List.getD_cons_succ]
          have hih := ih
          rw [if_neg hend, hfind] at hih
          exact hih

/-- Ring-map read after write at the written hash. -/
theorem ringGet_ringPut_self (r : List (Nat × Str)) (h : Nat) (n : Str) :
    ringGet (ringPut r h n) h = some n := by
  induction r with
  | nil => simp [ringPut, ringGet]
  | cons p rest ih =>
    obtain ⟨h', n'⟩ := p
    by_cases hh : h' = h
    · simp [ringPut, ringGet, hh]
    · simp [ringPut, ringGet, hh, ih]

/-- Ring-map read after write at a different hash. -/
theorem ringGet_ringPut_other (r : List (Nat × Str)) {h h0 : Nat} (n : Str)
    (hne : h ≠ h0) : ringGet (ringPut r h n) h0 = ringGet r h0 := by
  induction r with
  | nil => simp [ringPut, ringGet, hne]
  | cons p rest ih =>
    obtain ⟨h', n'⟩ := p
    by_cases hh : h' = h
    · subst hh
      simp [ringPut, ringGet, hne]
    · simp [ringPut, ringGet, hh, ih]

/-- Writing a batch of virtual hashes does not disturb other hashes. -/
theorem ringGet_foldl_notmem {node : Str} {h : Nat} : ∀ {hs : List Nat}
    (r : List (Nat × Str)), h ∉ hs →
    ringGet (hs.foldl (fun r x => ringPut r x node) r) h = ringGet r h := by
  intro hs
  induction hs with
  | nil => intro r _; rfl
  | cons a rest ih =>
    intro r hnot
    have ha : h ≠ a := fun hc => hnot (by simp [hc])
    have hrest : h ∉ rest := fun hc => hnot (List.mem_cons_of_mem _ hc)
    simp only [List.foldl_cons]
    rw [ih _ hrest, ringGet_ringPut_other _ _ (fun hc => ha hc.symm)]

/-- Every written virtual hash maps to the added node. -/
theorem ringGet_foldl_mem {node : Str} {h : Nat} : ∀ {hs : List Nat}
    (r : List (Nat × Str)), h ∈ hs →
    ringGet (hs.foldl (fun r x => ringPut r x node) r) h = some node := by
  intro hs
  induction hs with
  | nil => intro r hmem; simp at hmem
  | cons a rest ih =>
    intro r hmem
    by_cases hrest : h ∈ rest
    · simp only [List.foldl_cons]
      exact ih _ hrest
    · have ha : h = a := by
        rcases List.mem_cons.mp hmem with hx | hx
        · exact hx
        · exact absurd hx hrest
      subst ha
      simp only [List.foldl_cons]
      rw [ringGet_foldl_notmem _ hrest, ringGet_ringPut_self]

/-- A hash with a ring entry forces a non-empty ring map. -/
theorem ring_ne_nil_of_isSome {r : List (Nat × Str)} {h : Nat}
    (hsome : (ringGet r h).isSome = true) : ¬r.length = 0 := by
  cases r with
  | nil => simp [ringGet] at hsome
  | cons p rest => simp

/-- `GetNode` computes exactly the specification's lookup, on every ring
state. -/
theorem GetNode_eq_lookupSpec (c : ConsistentHash) (key : Str) :
    c.GetNode key = lookupSpec c key := by
  unfold ConsistentHash.GetNode lookupSpec ConsistentHash.search selHash
  by_cases hlen : c.ring.length = 0
  · simp [hlen]
  · rw [if_neg hlen, if_neg hlen]
    dsimp only
    rw [getD_searchIdx (hashKey key) 0 c.sortedHashes]

/-- C5: for every well-formed ring state, `GetNode` returns the server
stored at the first virtual position whose hash is ≥ `H(key)` — `H` being
the big-endian fold of the first four SHA-256 digest bytes (`hashKey`) —
wrapping to index 0 when no such position exists, and the empty result on
an empty ring (the refinement `GetNode = lookupSpec`, with `lookupSpec`
written from the spec's words). -/
theorem c5_getnode_matches_spec (c : ConsistentHash) (key : Str) (h_wf : ringWF c) :
    c.GetNode key = lookupSpec c key ∧ (c.ring.length = 0 → c.GetNode key = []) := by
  refine ⟨GetNode_eq_lookupSpec c key, ?_⟩
  intro h0
  unfold ConsistentHash.GetNode
  rw [if_pos h0]

/-- Witness for C5 at a concrete ring: one node `"n"` at position 5,
looked up with key `"a"`. -/
theorem c5_getnode_matches_spec_witness :
    ringWF (ConsistentHash.mk [(5, [110])] [5] [[110]] 1) ∧
    (ConsistentHash.mk [(5, [110])] [5] [[110]] 1).GetNode [97]
      = lookupSpec (ConsistentHash.mk [(5, [110])] [5] [[110]] 1) [97] := by
  have hwf : ringWF (ConsistentHash.mk [(5, [110])] [5] [[110]] 1) := by
    constructor
    · simp
    · intro h hmem
      simp at hmem
      simp [hmem, ringGet]
  exact ⟨hwf, (c5_getnode_matches_spec _ [97] hwf).1⟩

/-- C4: for every well-formed ring state and every key, adding a server
either leaves the lookup result unchanged or moves it to the added
server; it can never move it to a different pre-existing server. -/
theorem c4_ring_stability_under_growth (c : ConsistentHash) (key node : Str)
    (hwf : ringWF c) :
    (c.AddNode node).GetNode key = c.GetNode key ∨
    (c.AddNode node).GetNode key = node := by
  obtain ⟨hsorted, hcover⟩ := hwf
  unfold ConsistentHash.AddNode
  by_cases hmem : node ∈ c.nodes
  · rw [if_pos hmem]
    left
    rfl
  · rw [if_neg hmem]
    simp only [GetNode_eq_lookupSpec]
    unfold lookupSpec
    dsimp only
    set hs := virtualHashes node c.virtualNodes with hhs
    set R2 := hs.foldl (fun r h => ringPut r h node) c.ring with hR2
    set L2 := insSort (c.sortedHashes ++ hs) with hL2
    set h := hashKey key with hh
    have hsortedL2 : List.Pairwise (· ≤ ·) L2 := pairwise_insSort _
    have hmemL2 : ∀ y, y ∈ L2 ↔ y ∈ c.sortedHashes ∨ y ∈ hs := by
      intro y
      rw [hL2, mem_insSort, List.mem_append]
    by_cases hR20 : R2.length = 0
    · have hhs0 : hs = [] := by
        cases hcase : hs with
        | nil => rfl
        | cons a rest =>
          exfalso
          have hsome : ringGet R2 a = some node := by
            rw [hR2]
            exact ringGet_foldl_mem _ (by rw [hcase]; exact List.mem_cons_self a rest)
          have := ring_ne_nil_of_isSome (by rw [hsome]; rfl)
          exact this hR20
      have hRR : R2 = c.ring := by
        rw [hR2, hhs0]
        rfl
      left
      rw [if_pos hR20, if_pos (by rw [← hRR]; exact hR20)]
    · rw [if_neg hR20]
      unfold selHash
      cases hfind : L2.find? (fun x => h ≤ x) with
      | some x =>
        obtain ⟨hxmem, hpx, hxmin⟩ := find?_sorted_min hsortedL2 hfind
        by_cases hxhs : x ∈ hs
        · right
          dsimp only
          rw [hR2, ringGet_foldl_mem _ hxhs]
        · left
          have hxL : x ∈ c.sortedHashes := ((hmemL2 x).mp hxmem).resolve_right hxhs
          have hsomeold : ∃ x', c.sortedHashes.find? (fun t => h ≤ t) = some x' := by
            have hiss : (c.sortedHashes.find? (fun t => h ≤ t)).isSome := by
              rw [List.find?_isSome]
              exact ⟨x, hxL, hpx⟩
            exact Option.isSome_iff_exists.mp hiss
          obtain ⟨x', hx'⟩ := hsomeold
          obtain ⟨hx'mem, hpx', hx'min⟩ := find?_sorted_min hsorted hx'
          have hxx : x' = x :=
            le_antisymm (hx'min x hxL hpx)
              (hxmin x' ((hmemL2 x').mpr (Or.inl hx'mem)) hpx')
          have hRne : ¬c.ring.length = 0 := ring_ne_nil_of_isSome (hcover x hxL)
          rw [if_neg hRne, hx', hxx]
          dsimp only
          rw [hR2, ringGet_foldl_notmem _ hxhs]
      | none =>
        have hnoneold : c.sortedHashes.find? (fun t => h ≤ t) = none := by
          rw [List.find?_eq_none]
          intro y hy
          exact List.find?_eq_none.mp hfind y ((hmemL2 y).mpr (Or.inl hy))
        by_cases hL2nil : L2 = []
        · have hhs0 : hs = [] := by
            cases hcase : hs with
            | nil => rfl
            | cons a rest =>
              exfalso
              have : a ∈ L2 := (hmemL2 a).mpr (Or.inr (by rw [hcase]; simp))
              rw [hL2nil] at this
              simp at this
          have hold0 : c.sortedHashes = [] := by
            cases hcase : c.sortedHashes with
            | nil => rfl
            | cons a rest =>
              exfalso
              have : a ∈ L2 := (hmemL2 a).mpr (Or.inl (by rw [hcase]; simp))
              rw [hL2nil] at this
              simp at this
          have hRR : R2 = c.ring := by
            rw [hR2, hhs0]
            rfl
          left
          rw [if_neg (by rw [← hRR]; exact hR20), hnoneold, hL2nil, hold0, hRR]
        · obtain ⟨hmmem, hmmin⟩ := head_sorted_min hsortedL2 hL2nil
          by_cases hmhs : L2.getD 0 0 ∈ hs
          · right
            dsimp only
            rw [hR2, ringGet_foldl_mem _ hmhs]
          · left
            have hmL : L2.getD 0 0 ∈ c.sortedHashes :=
              ((hmemL2 _).mp hmmem).resolve_right hmhs
            have holdne : c.sortedHashes ≠ [] := by
              intro h0
              rw [h0] at hmL
              simp at hmL
            obtain ⟨hhmem, hhmin⟩ := head_sorted_min hsorted holdne
            have heq : c.sortedHashes.getD 0 0 = L2.getD 0 0 :=
              le_antisymm (hhmin _ hmL)
                (hmmin _ ((hmemL2 _).mpr (Or.inl hhmem)))
            have hRne : ¬c.ring.length = 0 := ring_ne_nil_of_isSome (hcover _ hmL)
            rw [if_neg hRne, hnoneold, heq]
            dsimp only
            rw [hR2, ringGet_foldl_notmem _ hmhs]

/-- Witness for C4 at a concrete ring: the one-node ring from the C5
witness grown by a second server. -/
theorem c4_ring_stability_under_growth_witness :
    ringWF (ConsistentHash.mk [(5, [110])] [5] [[110]] 1) ∧
    (((ConsistentHash.mk [(5, [110])] [5] [[110]] 1).AddNode [109]).GetNode [97]
        = (ConsistentHash.mk [(5, [110])] [5] [[110]] 1).GetNode [97] ∨
     ((ConsistentHash.mk [(5, [110])] [5] [[110]] 1).AddNode [109]).GetNode [97]
        = [109]) := by
  have hwf : ringWF (ConsistentHash.mk [(5, [110])] [5] [[110]] 1) := by
    constructor
    · simp
    · intro h hmem
      simp at hmem
      simp [hmem, ringGet]
  exact ⟨hwf, c4_ring_stability_under_growth _ [97] [109] hwf⟩
